import Mathlib

/-!
# Dank_Archive: 2D geometry core (basic_math, game_object, useful_functions)

A shallow embedding of the collision and ray-casting code of the game prototype.

Modelling conventions.

* C++ `float` values are elements of a linearly ordered field `K` (exact arithmetic).  At
  `K = ℚ` every definition below can be evaluated; at `K = ℝ` it is the real-number reading
  of the code.
* The `<math.h>` routines `sqrtf`, `cosf`, `sinf` and the constant `PI` of the doodle library
  are parameters of the functions that call them.
* A float division whose divisor is zero yields an infinity or a NaN in IEEE arithmetic.  Such a
  value is modelled by `none`; every comparison the code performs on it afterwards is
  recorded at the place where it happens.
* An output reference parameter (`Vector& intersectingPoint`, `GameObject*& p_obj`) is modelled
  by passing the old value in and returning the new value.
* A reference bound to an element of a temporary `vector` (`const Vector& p1 =
  line.getPoints()[0];`) dangles once the declaration is over.  What a later read through it
  delivers is not a function of the program's values, so the value read is an input of the
  function that reads it.
* The section on binary32 arithmetic runs the four-point routine with every operation rounded
  as `float` operations are, on rational values.
-/

namespace Dank

/-! ## basic_math.h / basic_math.cpp -/

/-- The struct `Vector` of basic_math.h: two float components. -/
structure Vector (K : Type) where
  x : K
  y : K
deriving DecidableEq, Repr

namespace Vector

variable {K : Type} [LinearOrderedField K]

/-- The method `Vector::operator+(const Vector&)`. -/
def add (a b : Vector K) : Vector K := ⟨a.x + b.x, a.y + b.y⟩

/-- The method `Vector::operator-(const Vector&)`. -/
def sub (a b : Vector K) : Vector K := ⟨a.x - b.x, a.y - b.y⟩

/-- The method `Vector::operator*(const float&)`. -/
def mulf (a : Vector K) (f : K) : Vector K := ⟨a.x * f, a.y * f⟩

/-- The method `Vector::operator/(const float&)`, used by the code with non-zero constants. -/
def divf (a : Vector K) (f : K) : Vector K := ⟨a.x / f, a.y / f⟩

/-- The method `Vector::operator*(const Vector&)`: the dot product (both overloads agree). -/
def dot (a b : Vector K) : K := 0 + a.x * b.x + a.y * b.y

/-- The method `Vector::cross`. -/
def cross (a b : Vector K) : K := (a.x * b.y) - (a.y * b.x)

/-- The method `Vector::sqrLength`. -/
def sqrLength (a : Vector K) : K := a.x * a.x + a.y * a.y

/-- The method `Vector::length`, with the library `sqrtf` as a parameter. -/
def length (sqrtf : K → K) (a : Vector K) : K := sqrtf (a.x * a.x + a.y * a.y)

instance : Add (Vector K) := ⟨add⟩
instance : Sub (Vector K) := ⟨sub⟩

end Vector

variable {K : Type} [LinearOrderedField K]

/-- The function `returnVectorLength`. -/
def returnVectorLength (sqrtf : K → K) (vector : Vector K) : K :=
  sqrtf (vector.x * vector.x + vector.y * vector.y)

/-- A float division `a / b`: `none` stands for the infinity or NaN a zero divisor produces. -/
def fdiv (a b : K) : Option K := if b = 0 then none else some (a / b)

/-- The method `Vector::toUnitVec`: both components are divided by the length of the
unmodified vector.  With a zero length the components become NaN or infinite (`none`). -/
def Vector.toUnitVec (sqrtf : K → K) (v : Vector K) : Option (Vector K) :=
  match fdiv v.x (returnVectorLength sqrtf ⟨v.x, v.y⟩),
        fdiv v.y (returnVectorLength sqrtf ⟨v.x, v.y⟩) with
  | some newX, some newY => some ⟨newX, newY⟩
  | _, _ => none

/-- The four-point overload of `get_Intersect_Point_From_2_Lines`.  The result is the returned
boolean together with the value of `intersectingPoint` after the call.  When a divisor is zero
`t` or `s` is an infinity or a NaN, for which `t > 0 && t < 1` (resp. `s > 0 && s < 1`) is
false, so the function falls through to `return false`. -/
def get_Intersect_Point_From_2_Lines (p1 p2 p3 p4 : Vector K) (intersectingPoint : Vector K) :
    Bool × Vector K :=
  let line1Dir : Vector K := p2 - p1
  let line2Dir : Vector K := p4 - p3
  let perp_p1p2 : Vector K := ⟨-line1Dir.y, line1Dir.x⟩
  let perp_p3p4 : Vector K := ⟨-line2Dir.y, line2Dir.x⟩
  match fdiv ((p1 - p3).dot perp_p1p2) (line2Dir.dot perp_p1p2),
        fdiv ((p3 - p1).dot perp_p3p4) (line1Dir.dot perp_p3p4) with
  | some t, some s =>
    if t > 0 ∧ t < 1 ∧ s > 0 ∧ s < 1 then (true, p1 + line1Dir.mulf s)
    else (false, intersectingPoint)
  | _, _ => (false, intersectingPoint)

/-- The parameter `t` (along the second segment) the four-point routine computes, in closed
form. -/
def paramT (p1 p2 p3 p4 : Vector K) : K :=
  (p2 - p1).cross (p1 - p3) / (p2 - p1).cross (p4 - p3)

/-- The parameter `s` (along the first segment) the four-point routine computes, in closed
form. -/
def paramS (p1 p2 p3 p4 : Vector K) : K :=
  (p4 - p3).cross (p1 - p3) / (p2 - p1).cross (p4 - p3)

/-- The class `Line`: two endpoints stored by value. -/
structure Line (K : Type) where
  p1 : Vector K
  p2 : Vector K
deriving DecidableEq, Repr

namespace Line

/-- The method `Line::getPoints`: the two endpoints, in order. -/
def getPoints (l : Line K) : Vector K × Vector K := (l.p1, l.p2)

/-- The method `Line::getDirectionVector`. -/
def getDirectionVector (l : Line K) : Vector K := ⟨l.p2.x - l.p1.x, l.p2.y - l.p1.y⟩

/-- The method `Line::getLength`. -/
def getLength (sqrtf : K → K) (l : Line K) : K :=
  let segment : Vector K := l.p2 - l.p1
  sqrtf (segment.x * segment.x + segment.y * segment.y)

/-- The method `Line::getLengthSqr`. -/
def getLengthSqr (l : Line K) : K :=
  let segment : Vector K := l.p2 - l.p1
  segment.x * segment.x + segment.y * segment.y

end Line

/-- The constant `FLT_EPSILON` of `<float.h>`: 2^-23. -/
def FLT_EPSILON : K := 1 / 2 ^ 23

/-- The `Line` overload of `get_Intersect_Point_From_2_Lines`: returned boolean and the value of
`intersectingPoint` after the call.  The code binds the references `p1` and `p3` to
`getPoints()[0]`, an element of a temporary vector that is destroyed at the end of the
declaration, and reads them afterwards; what such a read delivers is not determined by the
arguments, so the two values read are the inputs `p1` and `p3` of the model.  `abs` is the
floating-point absolute value.  The guard returns before either reference is read, and the
division happens only after the guard has excluded a zero determinant. -/
def get_Intersect_Point_From_2_Lines_Line (sqrtf : K → K) (line_1 line_2 : Line K)
    (p1 p3 : Vector K) (intersectingPoint : Vector K) : Bool × Vector K :=
  let line1 := line_1.getDirectionVector
  let line2 := line_2.getDirectionVector
  let parallelDet := line1.cross line2
  if |parallelDet| < FLT_EPSILON then (false, intersectingPoint)
  else
    let t := (p3 - p1).cross line2 / parallelDet
    let line1_length := line1.length sqrtf
    if t > line1_length then (false, intersectingPoint)
    else (true, p1 + line1.mulf t)

/-! ## variables.h -/

/-- The constant `circleFlag` of variables.h. -/
def circleFlag : Int := 1

/-- The constant `enemyDrawSize` of variables.h. -/
def enemyDrawSize : K := 70

/-! ## game_object.h / game_object.cpp -/

/-- The data members of the class `GameObject` (`HexColor` is an unsigned integer). -/
structure GameObject (K : Type) where
  isCircle : Bool
  pos2D : Vector K
  pos2DProjected : Vector K
  edges : List (Line K)
  color : Nat
deriving DecidableEq, Repr

/-- The constant `TWO_PI` of doodle/angle.hpp. -/
def TWO_PI (PI : K) : K := 2 * PI

/-- The largest `size_t` value (64-bit target). -/
def SIZE_MAX : Nat := 2 ^ 64 - 1

/-- The expression `points.size() - 1`, computed in `size_t`: it wraps around to `SIZE_MAX` on
an empty vector (a vector never holds more than `SIZE_MAX` elements). -/
def sizeMinusOne (size : Nat) : Nat := if size = 0 then SIZE_MAX else size - 1

/-- The first edge loop of the constructor, `for (size_t i = 0; i < points.size() - 1; i++)`:
`remaining` is the number of iterations still to run and `i` the loop counter.  Reading
`points[i]` or `points[i + 1]` outside the vector is undefined behaviour (`none`). -/
def edgeLoop (points : List (Vector K)) : Nat → Nat → List (Line K) → Option (List (Line K))
  | 0, _, edges => some edges
  | remaining + 1, i, edges =>
    match points[i]?, points[i + 1]? with
    | some p1, some p2 => edgeLoop points remaining (i + 1) (edges ++ [Line.mk p1 p2])
    | _, _ => none

/-- The vertex loop of the constructor: `nEdges` points on the unit circle. -/
def generatePoints (cosf sinf : K → K) (PI : K) (nEdges : Int) : List (Vector K) :=
  let d_angle : K := TWO_PI PI / (nEdges : K)
  let startAngle : K := if nEdges % 2 = 1 then 0 + PI / (nEdges : K) else 0
  (List.range nEdges.toNat).map fun (i : Nat) =>
    let angle : K := startAngle + (i : K) * d_angle
    Vector.mk (cosf angle) (sinf angle)

/-- The constructor `GameObject::GameObject(newPos2D, nEdges, color)`.  `none` stands for a
construction that does not complete: `points.reserve` throws on a negative count, and an
out-of-range read of `points` is undefined behaviour. -/
def GameObject.new (cosf sinf : K → K) (PI : K) (newPos2D : Vector K) (nEdges : Int)
    (color : Nat) : Option (GameObject K) :=
  if nEdges = circleFlag then
    some ⟨true, newPos2D, ⟨0, 0⟩, [], color⟩
  else if nEdges < 0 then none
  else
    let points := generatePoints cosf sinf PI nEdges
    let last : Nat := sizeMinusOne points.length
    match edgeLoop points last 0 [] with
    | none => none
    | some edges =>
      match points[last]?, points[0]? with
      | some pn, some p1 => some ⟨false, newPos2D, ⟨0, 0⟩, edges ++ [Line.mk p1 pn], color⟩
      | _, _ => none

/-- The method `GameObject::getEdges_GlobalPosition`.  In every iteration the code binds the
references `p1`, `p2` to elements of `getPoints()` temporaries that are destroyed before
`p1 + pos2D` and `p2 + pos2D` are evaluated; `reads i` stands for the two values those reads
deliver in iteration `i`.  One world edge is pushed per stored edge. -/
def GameObject.getEdges_GlobalPosition (reads : Nat → Vector K × Vector K) (g : GameObject K) :
    List (Line K) :=
  g.edges.enum.map fun ie => Line.mk ((reads ie.1).1 + g.pos2D) ((reads ie.1).2 + g.pos2D)

/-- The method `GameObject::getEdges_RelativePosition`. -/
def GameObject.getEdges_RelativePosition (g : GameObject K) : List (Line K) := g.edges

/-- The method `GameObject::getPos2D`. -/
def GameObject.getPos2D (g : GameObject K) : Vector K := g.pos2D

/-! ## useful_functions.cpp -/

/-- The circle branch of the loop body of `getFirstObjectHitByRay`: `isIntersecting` and the
local `intersectingPoint` (default-constructed to the origin).  When the ray direction has zero
length the unit perpendicular is NaN, so are the chord endpoints and both parameters of the
segment test, whose comparisons are then false. -/
def circleChordTest (sqrtf : K → K) (ray : Line K) (obj : GameObject K) : Bool × Vector K :=
  let ray_dir_x := ray.getDirectionVector.x
  let ray_dir_y := ray.getDirectionVector.y
  match Vector.toUnitVec sqrtf ⟨-ray_dir_y, ray_dir_x⟩ with
  | none => (false, ⟨0, 0⟩)
  | some perp_rayDirection =>
    let radiusVec := (perp_rayDirection.mulf enemyDrawSize).divf 2
    get_Intersect_Point_From_2_Lines (obj.pos2D - radiusVec) (obj.pos2D + radiusVec)
      ray.getPoints.1 ray.getPoints.2 ⟨0, 0⟩

/-- The values delivered by the reads through dangling references while one candidate is
tested: `edgeEnds i` are `p1`, `p2` of iteration `i` of `getEdges_GlobalPosition`, and
`lineStarts i` are `p1`, `p3` of the `Line` overload called on the `i`-th world edge. -/
structure StaleReads (K : Type) where
  edgeEnds : Nat → Vector K × Vector K
  lineStarts : Nat → Vector K × Vector K

/-- One choice of stale reads (every read delivers the origin), used to run the query on
concrete inputs. -/
def StaleReads.zero : StaleReads K := ⟨fun _ => (⟨0, 0⟩, ⟨0, 0⟩), fun _ => (⟨0, 0⟩, ⟨0, 0⟩)⟩

/-- The polygon branch of the loop body: the ray is tested against the world-space edges in
list order and the first reported hit ends the search. -/
def polygonEdgeTest (sqrtf : K → K) (reads : StaleReads K) (ray : Line K)
    (obj : GameObject K) : Bool :=
  (obj.getEdges_GlobalPosition reads.edgeEnds).enum.any fun ie =>
    (get_Intersect_Point_From_2_Lines_Line sqrtf ray ie.2
      (reads.lineStarts ie.1).1 (reads.lineStarts ie.1).2 ⟨0, 0⟩).1

/-- The test one candidate undergoes in the loop of `getFirstObjectHitByRay`. -/
def objectTest (sqrtf : K → K) (reads : StaleReads K) (ray : Line K) (obj : GameObject K) :
    Bool :=
  if obj.isCircle then (circleChordTest sqrtf ray obj).1 else polygonEdgeTest sqrtf reads ray obj

/-- The comparison lambda handed to `sort` in `getFirstObjectHitByRay`. -/
def closerTo (originPoint : Vector K) (obj1 obj2 : GameObject K) : Bool :=
  let dist1 := (obj1.getPos2D - originPoint).sqrLength
  let dist2 := (obj2.getPos2D - originPoint).sqrLength
  decide (dist1 < dist2)

/-- The function `getFirstObjectHitByRay`, with the live candidate list `enemyList[gameWave]`,
the library routine `std::sort` and the stale reads made while each candidate is tested as
inputs.  The result is the returned boolean and the value written to `p_obj` (`none` for
`nullptr`).  Candidates are compared by value. -/
def getFirstObjectHitByRay (sort : (GameObject K → GameObject K → Bool) → List (GameObject K) →
    List (GameObject K)) (sqrtf : K → K) (reads : GameObject K → StaleReads K)
    (enemies : List (GameObject K)) (originPoint endPoint : Vector K) :
    Bool × Option (GameObject K) :=
  let objects := sort (closerTo originPoint) enemies
  let ray : Line K := ⟨originPoint, endPoint⟩
  match objects.find? (fun obj => objectTest sqrtf (reads obj) ray obj) with
  | some obj => (true, some obj)
  | none => (false, none)

/-- What the C++ standard promises of `std::sort(first, last, comp)`: the output is a
rearrangement of the input in which no element is followed by one that `comp` puts before it.
The relative order of equivalent elements is unspecified. -/
def SortsBy {α : Type} (comp : α → α → Bool) (input output : List α) : Prop :=
  output.Perm input ∧ output.Pairwise (fun a b => comp b a = false)

/-- An executable sorting routine used to run the ray query on concrete inputs. -/
def insertionSortBy {α : Type} (comp : α → α → Bool) (l : List α) : List α :=
  l.insertionSort (fun a b => comp b a = false)

/-- An executable square root on the rationals, exact on squares of rationals. -/
@[irreducible]
def sqrtQ (q : ℚ) : ℚ := Rat.sqrt q

/-! ## Further routines of basic_math and game_object -/

/-- The method `Vector::operator+=`: the left operand after the update. -/
def Vector.addAssign (a b : Vector K) : Vector K := ⟨a.x + b.x, a.y + b.y⟩

/-- The method `Vector::getUnitVec`: the returned vector (`none` when the division by a zero
length yields NaN components) together with the object after the call. -/
def Vector.getUnitVec (sqrtf : K → K) (v : Vector K) : Option (Vector K) × Vector K :=
  let length := v.length sqrtf
  match fdiv v.x length, fdiv v.y length with
  | some x, some y => (some ⟨x, y⟩, v)
  | _, _ => (none, v)

/-- The function `rotateVector`: the value left in `vector`.  The second assignment reads
`vector.x` after the first assignment has overwritten it. -/
def rotateVector (cosf sinf sqrtf : K → K) (vector : Vector K) (radian : K) :
    Option (Vector K) :=
  let vector1 : Vector K := ⟨cosf radian * vector.x - sinf radian * vector.y, vector.y⟩
  let vector2 : Vector K := ⟨vector1.x, sinf radian * vector1.x + cosf radian * vector1.y⟩
  vector2.toUnitVec sqrtf

instance : HMul (Vector K) K (Vector K) := ⟨Vector.mulf⟩

/-- The template `lerp`: `conv` is the conversion `T(...)` applied to the interpolated value,
and an error stands for the thrown message. -/
def lerp {T R : Type} [Sub T] [HMul T K R] [HAdd T R R] (conv : R → T) (Start end_ : T)
    (point : K) : Except String T :=
  if point > 1 ∨ point < 0 then Except.error "point have to be int [0, 1]"
  else Except.ok (conv (Start + (end_ - Start) * point))

/-- The function `projected_Point_On_Line`.  When the two endpoints of the line coincide the
quotient is 0/0, a NaN (`none`). -/
def projected_Point_On_Line (p : Vector K) (line : Line K) : Option (Vector K) :=
  let line_p1 := line.getPoints.1
  let lineDir := line.getDirectionVector
  match fdiv ((p - line_p1).dot lineDir) line.getLengthSqr with
  | some q => some (line_p1 + lineDir.mulf q)
  | none => none

/-- The method `GameObject::translatePos2D`: the body after the call. -/
def GameObject.translatePos2D (g : GameObject K) (vector : Vector K) : GameObject K :=
  ⟨g.isCircle, g.pos2D.addAssign vector, g.pos2DProjected, g.edges, g.color⟩

/-! ## The ray query as a state transformer -/

/-- The variables `getFirstObjectHitByRay` can see: the live list `enemyList[gameWave]`, the
local vector `objects` and the output reference `p_obj`. -/
structure QueryState (K : Type) where
  enemyList : List (GameObject K)
  objects : List (GameObject K)
  p_obj : Option (GameObject K)

/-- The function `getFirstObjectHitByRay`, statement by statement, on `QueryState`: the local
`objects` starts empty, receives a copy of the live list, is sorted in place, and is scanned;
the scan reads the candidates and writes `p_obj` only. -/
def getFirstObjectHitByRay_run (sort : (GameObject K → GameObject K → Bool) →
    List (GameObject K) → List (GameObject K)) (sqrtf : K → K)
    (reads : GameObject K → StaleReads K) (enemyList : List (GameObject K))
    (p_obj : Option (GameObject K)) (originPoint endPoint : Vector K) : Bool × QueryState K :=
  let s0 : QueryState K := ⟨enemyList, [], p_obj⟩
  let s1 : QueryState K := ⟨s0.enemyList, s0.objects ++ s0.enemyList, s0.p_obj⟩
  let s2 : QueryState K := ⟨s1.enemyList, sort (closerTo originPoint) s1.objects, s1.p_obj⟩
  let ray : Line K := ⟨originPoint, endPoint⟩
  match s2.objects.find? (fun obj => objectTest sqrtf (reads obj) ray obj) with
  | some obj => (true, ⟨s2.enemyList, s2.objects, some obj⟩)
  | none => (false, ⟨s2.enemyList, s2.objects, none⟩)

/-! ## module.h / module.cpp -/

/-- The constant `coreTurnMax` of variables.h. -/
def coreTurnMax (PI : K) : K := (TWO_PI PI / 360) * 2

/-- The constant `coreDeceleration` of variables.h. -/
def coreDeceleration : K := 1 / 10

/-- The data members of the class `Module` that `syncRotation` uses. -/
structure Module (K : Type) where
  rotationVector : Vector K
  isJammed : Bool
  coreTurn : K

/-- The state of a freshly constructed `Module`. -/
def Module.init : Module K := ⟨⟨0, 1⟩, false, 0⟩

/-- What `syncRotation` reads from outside the module in one call: the firing flag of the
player (`mother->getFireRef()`), the key flags and the globals `coreAccelerationLeft`,
`coreAccelerationRight`, `globalDeltaTime`. -/
structure SyncInput (K : Type) where
  fire : Bool
  isLeftKeyDown : Bool
  isRightKeyDown : Bool
  coreAccelerationLeft : K
  coreAccelerationRight : K
  globalDeltaTime : K

/-- The method `Module::syncRotation`: the module after the call.  `none` stands for a call
that throws in `lerp` or leaves NaN components in `rotationVector`. -/
def Module.syncRotation (cosf sinf sqrtf : K → K) (PI : K) (inp : SyncInput K)
    (m : Module K) : Option (Module K) :=
  if inp.fire then some m
  else
    let coreTurn1 := if inp.isLeftKeyDown
      then m.coreTurn + inp.coreAccelerationLeft * inp.globalDeltaTime else m.coreTurn
    let coreTurn2 := if inp.isRightKeyDown
      then coreTurn1 - inp.coreAccelerationRight * inp.globalDeltaTime else coreTurn1
    let coreTurn3 := if coreTurn2 ≥ coreTurnMax PI then coreTurnMax PI
      else if coreTurn2 ≤ -coreTurnMax PI then -coreTurnMax PI else coreTurn2
    let coreTurn4 : Except String K :=
      if !inp.isLeftKeyDown && !inp.isRightKeyDown
      then lerp id coreTurn3 (0 : K) (coreDeceleration : K) else Except.ok coreTurn3
    match coreTurn4 with
    | Except.error _ => none
    | Except.ok coreTurn =>
      match rotateVector cosf sinf sqrtf m.rotationVector coreTurn with
      | some rotationVector => some ⟨rotationVector, m.isJammed, coreTurn⟩
      | none => none

/-- A sequence of `syncRotation` calls, one per frame. -/
def Module.syncRotations (cosf sinf sqrtf : K → K) (PI : K) :
    List (SyncInput K) → Module K → Option (Module K)
  | [], m => some m
  | inp :: rest, m =>
    match Module.syncRotation cosf sinf sqrtf PI inp m with
    | some m1 => Module.syncRotations cosf sinf sqrtf PI rest m1
    | none => none

/-- The method `GameObject::projectPos2D`: the body after the call. -/
def GameObject.projectPos2D (g : GameObject K) (vector : Vector K) : GameObject K :=
  ⟨g.isCircle, g.pos2D, vector, g.edges, g.color⟩

/-- The value `projectedVector` computed in the loop body of `Eye::percept` from the facing
vector, the player position and the enemy position.  A zero `lineVectorLength` makes the
quotient NaN (`none`). -/
def Eye.projectedVector (sqrtf : K → K) (rotationVector posVector vectorToProject : Vector K) :
    Option (Vector K) :=
  let lineVector : Vector K := ⟨-rotationVector.y, rotationVector.x⟩
  let lineVectorLength := returnVectorLength sqrtf lineVector
  match fdiv (lineVector.dot (vectorToProject - posVector))
      (lineVectorLength * lineVectorLength) with
  | some q => some (posVector + lineVector.mulf q)
  | none => none

/-- The geometric part of the loop body of `Eye::percept` for one enemy: the enemy after
`projectPos2D(perceptedEnemyVector)`.  The drawing calls that follow are not modelled. -/
def Eye.percept (sqrtf : K → K) (rotationVector : Vector K) (mother instEnemy : GameObject K) :
    Option (GameObject K) :=
  let lineVector : Vector K := ⟨-rotationVector.y, rotationVector.x⟩
  let posVector := mother.pos2D
  let vectorToProject := instEnemy.pos2D
  match Eye.projectedVector sqrtf rotationVector posVector vectorToProject with
  | none => none
  | some projectedVector =>
    let projectedEnemyX := projectedVector - posVector
    let projectedEnemyY := vectorToProject - projectedVector
    let perceptedEnemyVector : Vector K :=
      ⟨returnVectorLength sqrtf projectedEnemyX, returnVectorLength sqrtf projectedEnemyY⟩
    let vectorPlayerToEnemy : Vector K :=
      ⟨(vectorToProject - posVector).x, (vectorToProject - posVector).y⟩
    let perceptedEnemyVector1 : Vector K :=
      if vectorPlayerToEnemy.x * lineVector.y - vectorPlayerToEnemy.y * lineVector.x < 0
      then ⟨perceptedEnemyVector.x, perceptedEnemyVector.y * -1⟩ else perceptedEnemyVector
    let perceptedEnemyVector2 : Vector K :=
      if vectorPlayerToEnemy.x * rotationVector.y - vectorPlayerToEnemy.y * rotationVector.x < 0
      then ⟨perceptedEnemyVector1.x * -1, perceptedEnemyVector1.y⟩ else perceptedEnemyVector1
    some (instEnemy.projectPos2D perceptedEnemyVector2)

/-! ## enemy.cpp -/

/-- The constant `alphaMask` of variables.h. -/
def alphaMask : Int := 0x000000FF

/-- The constant `maxDistance` of variables.h. -/
def maxDistance : Int := 2200

/-- The constant `maxSight` of variables.h. -/
def maxSight : Int := 1000

/-- The conversion of a float to `int`: truncation towards zero. -/
def truncToInt [FloorRing K] (x : K) : Int := if 0 ≤ x then Int.floor x else Int.ceil x

/-- The interpolation parameter `abs(pos2DProjected.y - maxSight) / maxDistance` of
`enemy::draw` (`abs` is the floating-point absolute value, the integers are converted). -/
def alphaParameter (y : K) : K := |y - (maxSight : K)| / (maxDistance : K)

/-- The value of `tempAlpha` in `enemy::draw` for a projected position with the given `y`:
`lerp` is instantiated at `T = int`, where `(end - Start) * point` and the sum are computed in
float and the result is converted back to `int`.  An error stands for the thrown message. -/
def tempAlpha [FloorRing K] (y : K) : Except String Int :=
  if |y| < (maxSight : K) then
    @lerp K _ Int K ⟨Int.sub⟩ ⟨fun (i : Int) (x : K) => (i : K) * x⟩
      ⟨fun (i : Int) (x : K) => (i : K) + x⟩ truncToInt 0 255 (alphaParameter y)
  else Except.ok 0

/-! ## binary32 arithmetic

The code computes in `float`.  The definitions of this section run the four-point routine with
every operation rounded to binary32, on rational values. -/

/-- Rounding of a rational to the nearest integer, a tie going to the even neighbour. -/
def roundHalfEven (r : ℚ) : ℤ :=
  let f := ⌊r⌋
  let rem := r - f
  if rem < 1 / 2 then f
  else if 1 / 2 < rem then f + 1
  else if f % 2 = 0 then f else f + 1

/-- The binary32 value nearest to `q` (round to nearest, ties to even).  The binade of `q` is
the least `e` from -126 to 127 with `|q| < 2 ^ (e + 1)`, found as `e = k - 126`; binary32
values are spaced `2 ^ (e - 23)` apart there (24-bit significand; in the lowest binade this
also covers the subnormal values).  `none` stands for an infinity: the rounded magnitude is
not below `2 ^ 128`. -/
def roundF32 (q : ℚ) : Option ℚ :=
  match (List.range 254).find? fun (k : Nat) => |q| < 2 ^ ((k : ℤ) - 125) with
  | none => none
  | some k =>
    let ulp : ℚ := 2 ^ ((k : ℤ) - 149)
    let r := (roundHalfEven (q / ulp) : ℚ) * ulp
    if |r| < 2 ^ (128 : ℤ) then some r else none

/-- A binary32 division `a / b`: `none` stands for an infinity or a NaN. -/
def fdivF32 (a b : ℚ) : Option ℚ := if b = 0 then none else roundF32 (a / b)

/-- The method `Vector::operator+(const Vector&)` in binary32. -/
def Vector.addF32 (a b : Vector ℚ) : Option (Vector ℚ) := do
  let x ← roundF32 (a.x + b.x)
  let y ← roundF32 (a.y + b.y)
  pure ⟨x, y⟩

/-- The method `Vector::operator-(const Vector&)` in binary32. -/
def Vector.subF32 (a b : Vector ℚ) : Option (Vector ℚ) := do
  let x ← roundF32 (a.x - b.x)
  let y ← roundF32 (a.y - b.y)
  pure ⟨x, y⟩

/-- The method `Vector::operator*(const float&)` in binary32. -/
def Vector.mulfF32 (a : Vector ℚ) (f : ℚ) : Option (Vector ℚ) := do
  let x ← roundF32 (a.x * f)
  let y ← roundF32 (a.y * f)
  pure ⟨x, y⟩

/-- The method `Vector::operator*(const Vector&)` in binary32: `tempFloat` starts at 0 and the
two products are added to it one after the other, each product and each sum being rounded. -/
def Vector.dotF32 (a b : Vector ℚ) : Option ℚ := do
  let tempFloat : ℚ := 0
  let px ← roundF32 (a.x * b.x)
  let tempFloat ← roundF32 (tempFloat + px)
  let py ← roundF32 (a.y * b.y)
  roundF32 (tempFloat + py)

/-- The four-point overload of `get_Intersect_Point_From_2_Lines` in binary32, statement by
statement as in the exact version.  A quotient that is an infinity or a NaN fails the
comparisons; the outer `none` stands for a run in which another operation overflows, which
this model does not follow further. -/
def get_Intersect_Point_From_2_Lines_binary32 (p1 p2 p3 p4 : Vector ℚ)
    (intersectingPoint : Vector ℚ) : Option (Bool × Vector ℚ) := do
  let line1Dir ← Vector.subF32 p2 p1
  let line2Dir ← Vector.subF32 p4 p3
  let perp_p1p2 : Vector ℚ := ⟨-line1Dir.y, line1Dir.x⟩
  let perp_p3p4 : Vector ℚ := ⟨-line2Dir.y, line2Dir.x⟩
  let p1_p3 ← Vector.subF32 p1 p3
  let tNum ← Vector.dotF32 p1_p3 perp_p1p2
  let tDen ← Vector.dotF32 line2Dir perp_p1p2
  let p3_p1 ← Vector.subF32 p3 p1
  let sNum ← Vector.dotF32 p3_p1 perp_p3p4
  let sDen ← Vector.dotF32 line1Dir perp_p3p4
  match fdivF32 tNum tDen, fdivF32 sNum sDen with
  | some t, some s =>
    if t > 0 ∧ t < 1 ∧ s > 0 ∧ s < 1 then do
      let scaled ← Vector.mulfF32 line1Dir s
      let point ← Vector.addF32 p1 scaled
      pure (true, point)
    else pure (false, intersectingPoint)
  | _, _ => pure (false, intersectingPoint)

/-! ## Facts about the four-point intersection -/

section FourPoint

@[simp]
theorem Vector.add_x (a b : Vector K) : (a + b).x = a.x + b.x := rfl

@[simp]
theorem Vector.add_y (a b : Vector K) : (a + b).y = a.y + b.y := rfl

@[simp]
theorem Vector.sub_x (a b : Vector K) : (a - b).x = a.x - b.x := rfl

@[simp]
theorem Vector.sub_y (a b : Vector K) : (a - b).y = a.y - b.y := rfl

@[simp]
theorem Vector.mulf_x (a : Vector K) (f : K) : (a.mulf f).x = a.x * f := rfl

@[simp]
theorem Vector.mulf_y (a : Vector K) (f : K) : (a.mulf f).y = a.y * f := rfl

@[simp]
theorem Vector.divf_x (a : Vector K) (f : K) : (a.divf f).x = a.x / f := rfl

@[simp]
theorem Vector.divf_y (a : Vector K) (f : K) : (a.divf f).y = a.y / f := rfl

omit [LinearOrderedField K] in
theorem Vector.eq_iff (a b : Vector K) : a = b ↔ a.x = b.x ∧ a.y = b.y := by
  cases a; cases b; simp

/-- Closed form of the four-point routine: with `D = cross (p2 - p1) (p4 - p3)`, it reports a
hit exactly when `D ≠ 0` and both quotients lie strictly between 0 and 1. -/
theorem get_Intersect_Point_From_2_Lines_eq (p1 p2 p3 p4 out : Vector K) :
    get_Intersect_Point_From_2_Lines p1 p2 p3 p4 out =
      if (p2 - p1).cross (p4 - p3) ≠ 0 ∧ 0 < paramT p1 p2 p3 p4 ∧ paramT p1 p2 p3 p4 < 1 ∧
          0 < paramS p1 p2 p3 p4 ∧ paramS p1 p2 p3 p4 < 1
      then (true, p1 + (p2 - p1).mulf (paramS p1 p2 p3 p4)) else (false, out) := by
  have hD1 : (p4 - p3).dot ⟨-(p2 - p1).y, (p2 - p1).x⟩ = (p2 - p1).cross (p4 - p3) := by
    simp only [Vector.dot, Vector.cross]; ring
  have hD2 : (p2 - p1).dot ⟨-(p4 - p3).y, (p4 - p3).x⟩ = -(p2 - p1).cross (p4 - p3) := by
    simp only [Vector.dot, Vector.cross]; ring
  have hN1 : (p1 - p3).dot ⟨-(p2 - p1).y, (p2 - p1).x⟩ = (p2 - p1).cross (p1 - p3) := by
    simp only [Vector.dot, Vector.cross]; ring
  have hN2 : (p3 - p1).dot ⟨-(p4 - p3).y, (p4 - p3).x⟩ = -(p4 - p3).cross (p1 - p3) := by
    simp only [Vector.dot, Vector.cross, Vector.sub_x, Vector.sub_y]; ring
  unfold get_Intersect_Point_From_2_Lines
  simp only [hD1, hD2, hN1, hN2, fdiv]
  by_cases hD : (p2 - p1).cross (p4 - p3) = 0
  · simp [hD]
  · have hD' : -(p2 - p1).cross (p4 - p3) ≠ 0 := neg_ne_zero.mpr hD
    simp only [if_neg hD, if_neg hD', neg_div_neg_eq, paramT, paramS, ne_eq, hD,
      not_false_eq_true, true_and, gt_iff_lt, if_false]

/-- For non-parallel directions the crossing equation has the two quotients as its only
solution. -/
theorem crossing_unique (p1 p2 p3 p4 : Vector K) (s t : K)
    (hD : (p2 - p1).cross (p4 - p3) ≠ 0)
    (h : p1 + (p2 - p1).mulf s = p3 + (p4 - p3).mulf t) :
    s = paramS p1 p2 p3 p4 ∧ t = paramT p1 p2 p3 p4 := by
  rw [Vector.eq_iff] at h
  obtain ⟨ex, ey⟩ := h
  simp only [Vector.add_x, Vector.add_y, Vector.mulf_x, Vector.mulf_y, Vector.sub_x,
    Vector.sub_y] at ex ey
  simp only [Vector.cross, Vector.sub_x, Vector.sub_y] at hD
  constructor
  · unfold paramS
    simp only [Vector.cross, Vector.sub_x, Vector.sub_y]
    rw [eq_div_iff hD]
    linear_combination (p4.y - p3.y) * ex - (p4.x - p3.x) * ey
  · unfold paramT
    simp only [Vector.cross, Vector.sub_x, Vector.sub_y]
    rw [eq_div_iff hD]
    linear_combination (p2.y - p1.y) * ex - (p2.x - p1.x) * ey

/-- For non-parallel directions the two quotients solve the crossing equation. -/
theorem crossing_exists (p1 p2 p3 p4 : Vector K) (hD : (p2 - p1).cross (p4 - p3) ≠ 0) :
    p1 + (p2 - p1).mulf (paramS p1 p2 p3 p4) = p3 + (p4 - p3).mulf (paramT p1 p2 p3 p4) := by
  rw [Vector.eq_iff]
  simp only [Vector.cross, Vector.sub_x, Vector.sub_y] at hD
  simp only [Vector.add_x, Vector.add_y, Vector.mulf_x, Vector.mulf_y, Vector.sub_x,
    Vector.sub_y, paramS, paramT, Vector.cross]
  constructor <;> field_simp <;> ring

/-- Claim C2.  The four-point `get_Intersect_Point_From_2_Lines` returns true exactly when the
directions `p2 - p1` and `p4 - p3` are not parallel and some `s`, `t` strictly between 0 and 1
satisfy `p1 + s (p2 - p1) = p3 + t (p4 - p3)`; on true the output point is that common point,
on false the output point is left as it was. -/
theorem get_Intersect_Point_From_2_Lines_spec (p1 p2 p3 p4 out : Vector K) :
    ((get_Intersect_Point_From_2_Lines p1 p2 p3 p4 out).1 = true ↔
      ((p2 - p1).cross (p4 - p3) ≠ 0 ∧
        ∃ s t : K, 0 < s ∧ s < 1 ∧ 0 < t ∧ t < 1 ∧
          p1 + (p2 - p1).mulf s = p3 + (p4 - p3).mulf t)) ∧
    (∀ s t : K, (get_Intersect_Point_From_2_Lines p1 p2 p3 p4 out).1 = true →
        p1 + (p2 - p1).mulf s = p3 + (p4 - p3).mulf t →
        (get_Intersect_Point_From_2_Lines p1 p2 p3 p4 out).2 = p1 + (p2 - p1).mulf s) ∧
    ((get_Intersect_Point_From_2_Lines p1 p2 p3 p4 out).1 = false →
        (get_Intersect_Point_From_2_Lines p1 p2 p3 p4 out).2 = out) := by
  rw [get_Intersect_Point_From_2_Lines_eq]
  by_cases hc : (p2 - p1).cross (p4 - p3) ≠ 0 ∧ 0 < paramT p1 p2 p3 p4 ∧
      paramT p1 p2 p3 p4 < 1 ∧ 0 < paramS p1 p2 p3 p4 ∧ paramS p1 p2 p3 p4 < 1
  · rw [if_pos hc]
    obtain ⟨hD, ht0, ht1, hs0, hs1⟩ := hc
    refine ⟨⟨fun _ => ⟨hD, _, _, hs0, hs1, ht0, ht1, crossing_exists p1 p2 p3 p4 hD⟩,
      fun _ => rfl⟩, ?_, ?_⟩
    · intro s t _ he
      obtain ⟨rfl, -⟩ := crossing_unique p1 p2 p3 p4 s t hD he
      rfl
    · intro h
      exact absurd h (by simp)
  · rw [if_neg hc]
    refine ⟨⟨fun h => absurd h (by simp), ?_⟩, ?_, fun _ => rfl⟩
    · rintro ⟨hD, s, t, hs0, hs1, ht0, ht1, he⟩
      obtain ⟨rfl, rfl⟩ := crossing_unique p1 p2 p3 p4 s t hD he
      exact absurd ⟨hD, ht0, ht1, hs0, hs1⟩ hc
    · intro s t h _
      exact absurd h (by simp)

/-- Claim C3 (amended).  In exact arithmetic (coordinates in an ordered field, every operation
exact), two segments that share an endpoint are never reported as intersecting by the
four-point routine, whether or not they are parallel. -/
theorem get_Intersect_Point_From_2_Lines_shared_endpoint (p1 p2 p3 p4 out : Vector K)
    (h : p1 = p3 ∨ p1 = p4 ∨ p2 = p3 ∨ p2 = p4) :
    (get_Intersect_Point_From_2_Lines p1 p2 p3 p4 out).1 = false := by
  rw [get_Intersect_Point_From_2_Lines_eq]
  split_ifs with hc
  · exfalso
    obtain ⟨hD, ht0, ht1, hs0, hs1⟩ := hc
    have hD' := hD
    simp only [Vector.cross, Vector.sub_x, Vector.sub_y] at hD'
    rcases h with h | h | h | h
    · have : paramT p1 p2 p3 p4 = 0 := by
        subst h; simp [paramT, Vector.cross]
      rw [this] at ht0; exact lt_irrefl _ ht0
    · have : paramT p1 p2 p3 p4 = 1 := by
        subst h
        unfold paramT
        rw [div_eq_one_iff_eq hD]
      rw [this] at ht1; exact lt_irrefl _ ht1
    · have : paramS p1 p2 p3 p4 = 1 := by
        subst h
        unfold paramS
        rw [div_eq_one_iff_eq hD]
        simp only [Vector.cross, Vector.sub_x, Vector.sub_y]; ring
      rw [this] at hs1; exact lt_irrefl _ hs1
    · have : paramS p1 p2 p3 p4 = 1 := by
        subst h
        unfold paramS
        rw [div_eq_one_iff_eq hD]
        simp only [Vector.cross, Vector.sub_x, Vector.sub_y]; ring
      rw [this] at hs1; exact lt_irrefl _ hs1
  · rfl

theorem paramT_swap (p1 p2 p3 p4 : Vector K) :
    paramT p3 p4 p1 p2 = paramS p1 p2 p3 p4 := by
  unfold paramT paramS
  rw [← neg_div_neg_eq]
  congr 1 <;> simp only [Vector.cross, Vector.sub_x, Vector.sub_y] <;> ring

theorem paramS_swap (p1 p2 p3 p4 : Vector K) :
    paramS p3 p4 p1 p2 = paramT p1 p2 p3 p4 := by
  unfold paramT paramS
  rw [← neg_div_neg_eq]
  congr 1 <;> simp only [Vector.cross, Vector.sub_x, Vector.sub_y] <;> ring

theorem cross_swap_ne_zero (a b : Vector K) : a.cross b ≠ 0 ↔ b.cross a ≠ 0 := by
  have h : a.cross b = -b.cross a := by simp only [Vector.cross]; ring
  rw [h, neg_ne_zero]

/-- Claim C8.  Swapping the roles of the two segments changes neither the returned boolean nor
the output point of the four-point routine. -/
theorem get_Intersect_Point_From_2_Lines_symm (p1 p2 p3 p4 out1 out2 : Vector K) :
    (get_Intersect_Point_From_2_Lines p1 p2 p3 p4 out1).1 =
        (get_Intersect_Point_From_2_Lines p3 p4 p1 p2 out2).1 ∧
      ((get_Intersect_Point_From_2_Lines p1 p2 p3 p4 out1).1 = true →
        (get_Intersect_Point_From_2_Lines p1 p2 p3 p4 out1).2 =
          (get_Intersect_Point_From_2_Lines p3 p4 p1 p2 out2).2) := by
  simp only [get_Intersect_Point_From_2_Lines_eq, paramT_swap p1 p2 p3 p4,
    paramS_swap p1 p2 p3 p4, cross_swap_ne_zero (p4 - p3) (p2 - p1)]
  by_cases hc : (p2 - p1).cross (p4 - p3) ≠ 0 ∧ 0 < paramT p1 p2 p3 p4 ∧
      paramT p1 p2 p3 p4 < 1 ∧ 0 < paramS p1 p2 p3 p4 ∧ paramS p1 p2 p3 p4 < 1
  · have hc' : (p2 - p1).cross (p4 - p3) ≠ 0 ∧ 0 < paramS p1 p2 p3 p4 ∧
        paramS p1 p2 p3 p4 < 1 ∧ 0 < paramT p1 p2 p3 p4 ∧ paramT p1 p2 p3 p4 < 1 :=
      ⟨hc.1, hc.2.2.2.1, hc.2.2.2.2, hc.2.1, hc.2.2.1⟩
    rw [if_pos hc, if_pos hc']
    exact ⟨rfl, fun _ => crossing_exists p1 p2 p3 p4 hc.1⟩
  · have hc' : ¬((p2 - p1).cross (p4 - p3) ≠ 0 ∧ 0 < paramS p1 p2 p3 p4 ∧
        paramS p1 p2 p3 p4 < 1 ∧ 0 < paramT p1 p2 p3 p4 ∧ paramT p1 p2 p3 p4 < 1) :=
      fun h => hc ⟨h.1, h.2.2.2.1, h.2.2.2.2, h.2.1, h.2.2.1⟩
    rw [if_neg hc, if_neg hc']
    exact ⟨rfl, fun h => absurd h (by simp)⟩

/-- Witness for claim C3: the segments (0,0)-(1,0) and (0,0)-(0,1) share their first endpoint
and are not reported as intersecting. -/
theorem get_Intersect_Point_From_2_Lines_shared_endpoint_witness :
    ((⟨0, 0⟩ : Vector ℚ) = ⟨0, 0⟩ ∨ (⟨0, 0⟩ : Vector ℚ) = ⟨0, 1⟩ ∨
        (⟨1, 0⟩ : Vector ℚ) = ⟨0, 0⟩ ∨ (⟨1, 0⟩ : Vector ℚ) = ⟨0, 1⟩) ∧
      (get_Intersect_Point_From_2_Lines (⟨0, 0⟩ : Vector ℚ) ⟨1, 0⟩ ⟨0, 0⟩ ⟨0, 1⟩ ⟨7, 7⟩).1
        = false :=
  ⟨Or.inl rfl, get_Intersect_Point_From_2_Lines_shared_endpoint _ _ _ _ _ (Or.inl rfl)⟩

/-- Claim C3 as stated fails in the arithmetic the code runs in.  In binary32 the segments
(0,0)-(1,1) and (0,0.1f)-(1,1), which share the endpoint (1,1), are reported as intersecting.
The literal `0.1f` is 13421773/134217728 and `1 - 0.1f` is rounded to 7549747/8388608, so both
divisors are 838861/8388608 while both dividends are `0.1f` in absolute value; both quotients
round to 4194303/4194304, strictly between 0 and 1, and the routine returns true with the
point (4194303/4194304, 4194303/4194304).  With exact operations the same call returns
false. -/
theorem get_Intersect_Point_From_2_Lines_binary32_shared_endpoint :
    roundF32 (1 / 10) = some (13421773 / 134217728) ∧
    Vector.subF32 ⟨1, 1⟩ ⟨0, 13421773 / 134217728⟩ = some ⟨1, 7549747 / 8388608⟩ ∧
    Vector.dotF32 ⟨0, -(13421773 / 134217728)⟩ ⟨-1, 1⟩ = some (-(13421773 / 134217728)) ∧
    Vector.dotF32 ⟨1, 7549747 / 8388608⟩ ⟨-1, 1⟩ = some (-(838861 / 8388608)) ∧
    Vector.dotF32 ⟨0, 13421773 / 134217728⟩ ⟨-(7549747 / 8388608), 1⟩ =
      some (13421773 / 134217728) ∧
    Vector.dotF32 ⟨1, 1⟩ ⟨-(7549747 / 8388608), 1⟩ = some (838861 / 8388608) ∧
    fdivF32 (13421773 / 134217728) (838861 / 8388608) = some (4194303 / 4194304) ∧
    get_Intersect_Point_From_2_Lines_binary32 ⟨0, 0⟩ ⟨1, 1⟩ ⟨0, 13421773 / 134217728⟩ ⟨1, 1⟩
        ⟨0, 0⟩ = some (true, ⟨4194303 / 4194304, 4194303 / 4194304⟩) ∧
    get_Intersect_Point_From_2_Lines (⟨0, 0⟩ : Vector ℚ) ⟨1, 1⟩ ⟨0, 13421773 / 134217728⟩ ⟨1, 1⟩
        ⟨0, 0⟩ = (false, ⟨0, 0⟩) := by
  decide!

end FourPoint

/-! ## Facts about the `Line` overload -/

section LineOverload

theorem sqrtQ_mul_self (q : ℚ) (hq : 0 ≤ q) : sqrtQ (q * q) = q := by
  unfold sqrtQ
  rw [Rat.sqrt_eq, abs_of_nonneg hq]

/-- Past the guard, when both stale references deliver the same value `g` (the two destroyed
temporaries occupied the same storage), the `Line` overload computes `t = 0`, accepts it and
writes `g`: it reports a hit at whatever the freed storage holds. -/
theorem get_Intersect_Point_From_2_Lines_Line_aliased (sqrtf : K → K) (line_1 line_2 : Line K)
    (g out : Vector K)
    (hdet : ¬ |line_1.getDirectionVector.cross line_2.getDirectionVector| < FLT_EPSILON)
    (hlen : 0 ≤ line_1.getDirectionVector.length sqrtf) :
    get_Intersect_Point_From_2_Lines_Line sqrtf line_1 line_2 g g out = (true, g) := by
  have ht : (g - g).cross line_2.getDirectionVector /
      line_1.getDirectionVector.cross line_2.getDirectionVector = 0 := by
    simp only [Vector.cross, Vector.sub_x, Vector.sub_y, sub_self, zero_mul, zero_div]
  unfold get_Intersect_Point_From_2_Lines_Line
  simp only [if_neg hdet, ht, gt_iff_lt, if_neg (not_lt.mpr hlen)]
  congr 1
  rw [Vector.eq_iff]
  simp

/-- Claim C6, evaluated at the ray (0,0)-(10,0), of length 10, and the edge (50,-1)-(50,1).
When the two stale references deliver the same value `g`, the `Line` overload reports a hit at
`g`, wherever that is; and even if they still deliver the first points (0,0) and (50,-1) of the
two lines, it reports a hit at (50,0), at distance 50 from the ray's first point, because the
parameter `t = 5` is compared with the length 10 instead of with 1. -/
theorem get_Intersect_Point_From_2_Lines_Line_beyond_length :
    (∀ g : Vector ℚ,
      get_Intersect_Point_From_2_Lines_Line sqrtQ (Line.mk (⟨0, 0⟩ : Vector ℚ) ⟨10, 0⟩)
        (Line.mk ⟨50, -1⟩ ⟨50, 1⟩) g g ⟨0, 0⟩ = (true, g)) ∧
    get_Intersect_Point_From_2_Lines_Line sqrtQ (Line.mk (⟨0, 0⟩ : Vector ℚ) ⟨10, 0⟩)
        (Line.mk ⟨50, -1⟩ ⟨50, 1⟩) ⟨0, 0⟩ ⟨50, -1⟩ ⟨0, 0⟩ = (true, ⟨50, 0⟩) ∧
      (Line.mk (⟨0, 0⟩ : Vector ℚ) ⟨10, 0⟩).getLength sqrtQ = 10 ∧
      ((⟨50, 0⟩ : Vector ℚ) - ⟨0, 0⟩).length sqrtQ = 50 := by
  have h10 : sqrtQ (10 * 10) = 10 := sqrtQ_mul_self 10 (by norm_num)
  have h50 : sqrtQ (50 * 50) = 50 := sqrtQ_mul_self 50 (by norm_num)
  have e10 : ((10 : ℚ) - 0) * (10 - 0) + (0 - 0) * (0 - 0) = 10 * 10 := by norm_num
  have e50 : ((50 : ℚ) - 0) * (50 - 0) + (0 - 0) * (0 - 0) = 50 * 50 := by norm_num
  refine ⟨?_, ?_, ?_, ?_⟩
  · intro g
    apply get_Intersect_Point_From_2_Lines_Line_aliased
    · norm_num [Line.getDirectionVector, Vector.cross, FLT_EPSILON, abs_lt]
    · simp only [Line.getDirectionVector, Vector.length, e10, h10]
      norm_num
  · unfold get_Intersect_Point_From_2_Lines_Line
    simp only [Line.getDirectionVector, Vector.cross, Vector.length,
      Vector.sub_x, Vector.sub_y, e10, h10, FLT_EPSILON]
    norm_num [Vector.eq_iff, abs_lt]
  · simp only [Line.getLength, Vector.sub_x, Vector.sub_y, e10, h10]
  · simp only [Vector.length, Vector.sub_x, Vector.sub_y, e50, h50]

end LineOverload

/-! ## Facts about the circle branch of the ray query -/

section CircleBranch

/-- The chord the circle branch builds for centre `c`, ray `o`-`e` and ray length `L`:
`c ∓ (perp / L) * enemyDrawSize / 2` with `perp = (-(e - o).y, (e - o).x)`. -/
theorem toUnitVec_perp (sqrtf : K → K) (o e : Vector K)
    (hpos : 0 < sqrtf (e - o).sqrLength) :
    Vector.toUnitVec sqrtf ⟨-(e.y - o.y), e.x - o.x⟩ =
      some ⟨-(e.y - o.y) / sqrtf (e - o).sqrLength, (e.x - o.x) / sqrtf (e - o).sqrLength⟩ := by
  have harg : -(e.y - o.y) * -(e.y - o.y) + (e.x - o.x) * (e.x - o.x) = (e - o).sqrLength := by
    simp only [Vector.sqrLength, Vector.sub_x, Vector.sub_y]; ring
  unfold Vector.toUnitVec returnVectorLength fdiv
  simp only [harg, if_neg (ne_of_gt hpos)]

theorem sqrtf_pos_of_ne (sqrtf : K → K) (o e : Vector K) (he : e ≠ o)
    (h0 : 0 ≤ sqrtf (e - o).sqrLength)
    (hsq : sqrtf (e - o).sqrLength * sqrtf (e - o).sqrLength = (e - o).sqrLength) :
    0 < sqrtf (e - o).sqrLength := by
  rcases h0.lt_or_eq with h | h
  · exact h
  · exfalso
    rw [← h, mul_zero] at hsq
    have hx : (e.x - o.x) * (e.x - o.x) + (e.y - o.y) * (e.y - o.y) = 0 := by
      simpa [Vector.sqrLength] using hsq.symm
    have h1 : e.x - o.x = 0 := by nlinarith [mul_self_nonneg (e.x - o.x), mul_self_nonneg (e.y - o.y)]
    have h2 : e.y - o.y = 0 := by nlinarith [mul_self_nonneg (e.x - o.x), mul_self_nonneg (e.y - o.y)]
    apply he
    rw [Vector.eq_iff]
    exact ⟨sub_eq_zero.mp h1, sub_eq_zero.mp h2⟩

/-- Closed form of the circle branch when `sqrtf` returns the exact, positive length `L` of the
ray: the chord test succeeds exactly when the foot parameter `dot (c - o) (e - o) / L²` and the
chord parameter `1/2 - cross (e - o) (c - o) / (enemyDrawSize * L)` are strictly between 0
and 1, and the point it computes is the foot of the centre on the ray's line. -/
theorem circleChordTest_eq (sqrtf : K → K) (o e : Vector K) (obj : GameObject K)
    (hpos : 0 < sqrtf (e - o).sqrLength)
    (hsq : sqrtf (e - o).sqrLength * sqrtf (e - o).sqrLength = (e - o).sqrLength) :
    circleChordTest sqrtf ⟨o, e⟩ obj =
      if 0 < (obj.pos2D - o).dot (e - o) / (e - o).sqrLength ∧
          (obj.pos2D - o).dot (e - o) / (e - o).sqrLength < 1 ∧
          0 < 1 / 2 - (e - o).cross (obj.pos2D - o) / (enemyDrawSize * sqrtf (e - o).sqrLength) ∧
          1 / 2 - (e - o).cross (obj.pos2D - o) / (enemyDrawSize * sqrtf (e - o).sqrLength) < 1
      then (true, o + (e - o).mulf ((obj.pos2D - o).dot (e - o) / (e - o).sqrLength))
      else (false, ⟨0, 0⟩) := by
  have hL : sqrtf (e - o).sqrLength ≠ 0 := ne_of_gt hpos
  have hq : (e - o).sqrLength ≠ 0 := by rw [← hsq]; exact mul_ne_zero hL hL
  unfold circleChordTest
  simp only [Line.getDirectionVector, Line.getPoints]
  rw [toUnitVec_perp sqrtf o e hpos]
  simp only []
  rw [get_Intersect_Point_From_2_Lines_eq]
  generalize hLdef : sqrtf (e - o).sqrLength = L at *
  set rv : Vector K := (Vector.mulf ⟨-(e.y - o.y) / L, (e.x - o.x) / L⟩ enemyDrawSize).divf 2
    with hrv
  have hrvx : rv.x = -(e.y - o.y) / L * 70 / 2 := rfl
  have hrvy : rv.y = (e.x - o.x) / L * 70 / 2 := rfl
  have hsq' : L * L = (e.x - o.x) * (e.x - o.x) + (e.y - o.y) * (e.y - o.y) := hsq
  have hD : (obj.pos2D + rv - (obj.pos2D - rv)).cross (e - o) = -(enemyDrawSize * L) := by
    simp only [Vector.cross, Vector.sub_x, Vector.sub_y, Vector.add_x, Vector.add_y, hrvx,
      hrvy, enemyDrawSize]
    field_simp
    linear_combination (140 : K) * hsq'
  have hDne : (obj.pos2D + rv - (obj.pos2D - rv)).cross (e - o) ≠ 0 := by
    rw [hD]; exact neg_ne_zero.mpr (mul_ne_zero (by norm_num [enemyDrawSize]) hL)
  have hT : paramT (obj.pos2D - rv) (obj.pos2D + rv) o e =
      (obj.pos2D - o).dot (e - o) / (e - o).sqrLength := by
    unfold paramT
    rw [hD, div_eq_div_iff (neg_ne_zero.mpr (mul_ne_zero (by norm_num [enemyDrawSize]) hL)) hq]
    simp only [Vector.cross, Vector.dot, Vector.sqrLength, Vector.sub_x, Vector.sub_y,
      Vector.add_x, Vector.add_y, hrvx, hrvy, enemyDrawSize]
    field_simp
    linear_combination (280 * L * ((obj.pos2D.x - o.x) * (e.x - o.x) +
      (obj.pos2D.y - o.y) * (e.y - o.y))) * hsq'
  have hS : paramS (obj.pos2D - rv) (obj.pos2D + rv) o e =
      1 / 2 - (e - o).cross (obj.pos2D - o) / (enemyDrawSize * L) := by
    unfold paramS
    rw [hD]
    simp only [Vector.cross, Vector.sub_x, Vector.sub_y,
      Vector.add_x, Vector.add_y, hrvx, hrvy, enemyDrawSize]
    field_simp
    linear_combination (9800 * L) * hsq'
  have hpt : obj.pos2D - rv + (obj.pos2D + rv - (obj.pos2D - rv)).mulf
      (paramS (obj.pos2D - rv) (obj.pos2D + rv) o e) =
      o + (e - o).mulf ((obj.pos2D - o).dot (e - o) / (e - o).sqrLength) := by
    rw [crossing_exists _ _ _ _ hDne, hT]
  rw [hS] at hpt
  simp only [hpt, hT, hS, ne_eq, hDne, not_false_eq_true, true_and]

/-- Claim C4.  For a ray `o`-`e` with `e ≠ o`, `sqrtf` returning the exact length of `e - o`,
and a circular candidate with centre `c = obj.pos2D`, the candidate's chord test reports a hit
exactly when `0 < dot (c - o) (e - o) / |e - o|² < 1` and
`|cross (e - o) (c - o)| / |e - o| < enemyDrawSize / 2`.  In particular a centre at
perpendicular distance at least `enemyDrawSize / 2` from the ray's line is never hit. -/
theorem objectTest_circle_iff (sqrtf : K → K) (reads : StaleReads K) (o e : Vector K)
    (obj : GameObject K)
    (hcirc : obj.isCircle = true) (he : e ≠ o)
    (h0 : 0 ≤ (e - o).length sqrtf)
    (hsq : (e - o).length sqrtf * (e - o).length sqrtf = (e - o).sqrLength) :
    (objectTest sqrtf reads ⟨o, e⟩ obj = true ↔
      (0 < (obj.pos2D - o).dot (e - o) / (e - o).sqrLength ∧
        (obj.pos2D - o).dot (e - o) / (e - o).sqrLength < 1 ∧
        |(e - o).cross (obj.pos2D - o)| / (e - o).length sqrtf < enemyDrawSize / 2)) ∧
    (enemyDrawSize / 2 ≤ |(e - o).cross (obj.pos2D - o)| / (e - o).length sqrtf →
      objectTest sqrtf reads ⟨o, e⟩ obj = false) := by
  have hlen : (e - o).length sqrtf = sqrtf (e - o).sqrLength := rfl
  rw [hlen] at h0 hsq ⊢
  have hpos := sqrtf_pos_of_ne sqrtf o e he h0 hsq
  have hiff : objectTest sqrtf reads ⟨o, e⟩ obj = true ↔
      (0 < (obj.pos2D - o).dot (e - o) / (e - o).sqrLength ∧
        (obj.pos2D - o).dot (e - o) / (e - o).sqrLength < 1 ∧
        |(e - o).cross (obj.pos2D - o)| / sqrtf (e - o).sqrLength < enemyDrawSize / 2) := by
    unfold objectTest
    rw [if_pos hcirc, circleChordTest_eq sqrtf o e obj hpos hsq]
    generalize sqrtf (e - o).sqrLength = L at hpos
    have hX : (e - o).cross (obj.pos2D - o) / (enemyDrawSize * L) =
        (e - o).cross (obj.pos2D - o) / L / 70 := by
      unfold enemyDrawSize
      rw [div_div, mul_comm]
    rw [hX, ← abs_of_pos hpos, ← abs_div, abs_of_pos hpos, abs_lt]
    generalize (e - o).cross (obj.pos2D - o) / L = a
    have h70 : (enemyDrawSize : K) / 2 = 35 := by norm_num [enemyDrawSize]
    rw [h70]
    constructor
    · intro h
      split_ifs at h with hc
      · obtain ⟨h1, h2, h3, h4⟩ := hc
        exact ⟨h1, h2, by linarith, by linarith⟩
    · rintro ⟨h1, h2, h3, h4⟩
      rw [if_pos ⟨h1, h2, by linarith, by linarith⟩]
  refine ⟨hiff, fun hge => ?_⟩
  cases hb : objectTest sqrtf reads ⟨o, e⟩ obj
  · rfl
  · exact absurd (hiff.mp hb).2.2 (not_lt.mpr hge)

theorem sqrtQ_10000 : sqrtQ (100 * 100) = 100 := sqrtQ_mul_self 100 (by norm_num)

/-- Witness for claim C4: the ray (0,0)-(100,0) does not hit a circular candidate centred at
(50,1000). -/
theorem objectTest_circle_iff_witness :
    objectTest sqrtQ StaleReads.zero ⟨(⟨0, 0⟩ : Vector ℚ), ⟨100, 0⟩⟩ ⟨true, ⟨50, 1000⟩, ⟨0, 0⟩, [], 0⟩ = false :=
  (objectTest_circle_iff sqrtQ StaleReads.zero ⟨0, 0⟩ ⟨100, 0⟩ ⟨true, ⟨50, 1000⟩, ⟨0, 0⟩, [], 0⟩ rfl
    (by simp [Vector.eq_iff])
    (by
      have e : ((100 : ℚ) - 0) * (100 - 0) + (0 - 0) * (0 - 0) = 100 * 100 := by norm_num
      simp only [Vector.length, Vector.sub_x, Vector.sub_y, e, sqrtQ_10000]
      norm_num)
    (by
      have e : ((100 : ℚ) - 0) * (100 - 0) + (0 - 0) * (0 - 0) = 100 * 100 := by norm_num
      simp only [Vector.length, Vector.sqrLength, Vector.sub_x, Vector.sub_y, e,
        sqrtQ_10000])).2
    (by
      have e : ((100 : ℚ) - 0) * (100 - 0) + (0 - 0) * (0 - 0) = 100 * 100 := by norm_num
      simp only [Vector.length, Vector.cross, Vector.sub_x, Vector.sub_y, e, sqrtQ_10000,
        enemyDrawSize]
      norm_num)

end CircleBranch

/-! ## Facts about the ray query -/

section RayQuery

/-- The scan of `getFirstObjectHitByRay` over a list sorted by `closerTo`: a found candidate
passes its test and every candidate strictly nearer to the origin fails it. -/
theorem find_sorted_some (test : GameObject K → Bool) (o : Vector K)
    (l : List (GameObject K)) (hl : l.Pairwise (fun a b => closerTo o b a = false))
    (c : GameObject K) (h : l.find? test = some c) :
    c ∈ l ∧ test c = true ∧
      ∀ c' ∈ l, (c'.getPos2D - o).sqrLength < (c.getPos2D - o).sqrLength → test c' = false := by
  obtain ⟨hc, as, bs, rfl, has⟩ := List.find?_eq_some.mp h
  refine ⟨by simp, hc, fun c' hc' hlt => ?_⟩
  rw [List.pairwise_append] at hl
  obtain ⟨-, hcb, -⟩ := hl
  rw [List.pairwise_cons] at hcb
  rcases List.mem_append.mp hc' with h1 | h1
  · simpa using has c' h1
  · rcases List.mem_cons.mp h1 with h2 | h2
    · subst h2; exact absurd hlt (lt_irrefl _)
    · have := hcb.1 c' h2
      simp only [closerTo, decide_eq_false_iff_not] at this
      exact absurd hlt this

/-- Claim C1 (amended).  With `std::sort` delivering any sorted rearrangement of the candidate
list: the query returns false exactly when no candidate reports a hit; if it returns true with
`p_obj = c` then `c` is a candidate that reports a hit and no candidate strictly nearer to the
origin (by squared centre distance) reports one; and a candidate with these two properties is
the one returned whenever no other hitting candidate lies at the same squared distance. -/
theorem getFirstObjectHitByRay_nearest
    (sort : (GameObject K → GameObject K → Bool) → List (GameObject K) → List (GameObject K))
    (sqrtf : K → K) (reads : GameObject K → StaleReads K) (enemies : List (GameObject K))
    (o e : Vector K)
    (hsort : SortsBy (closerTo o) enemies (sort (closerTo o) enemies)) :
    ((getFirstObjectHitByRay sort sqrtf reads enemies o e).1 = false ↔
      ∀ c ∈ enemies, objectTest sqrtf (reads c) ⟨o, e⟩ c = false) ∧
    (∀ c, getFirstObjectHitByRay sort sqrtf reads enemies o e = (true, some c) →
      c ∈ enemies ∧ objectTest sqrtf (reads c) ⟨o, e⟩ c = true ∧
        ∀ c' ∈ enemies, (c'.getPos2D - o).sqrLength < (c.getPos2D - o).sqrLength →
          objectTest sqrtf (reads c') ⟨o, e⟩ c' = false) ∧
    (∀ c ∈ enemies, objectTest sqrtf (reads c) ⟨o, e⟩ c = true →
      (∀ c' ∈ enemies, (c'.getPos2D - o).sqrLength < (c.getPos2D - o).sqrLength →
        objectTest sqrtf (reads c') ⟨o, e⟩ c' = false) →
      (∀ c' ∈ enemies, objectTest sqrtf (reads c') ⟨o, e⟩ c' = true →
        (c'.getPos2D - o).sqrLength = (c.getPos2D - o).sqrLength → c' = c) →
      getFirstObjectHitByRay sort sqrtf reads enemies o e = (true, some c)) := by
  obtain ⟨hperm, hpw⟩ := hsort
  have hmem : ∀ c, c ∈ sort (closerTo o) enemies ↔ c ∈ enemies := fun c => hperm.mem_iff
  unfold getFirstObjectHitByRay
  simp only []
  cases hf : (sort (closerTo o) enemies).find? (fun obj => objectTest sqrtf (reads obj) ⟨o, e⟩ obj) with
  | none =>
    have hnone : ∀ c ∈ enemies, objectTest sqrtf (reads c) ⟨o, e⟩ c = false := by
      intro c hc
      have := List.find?_eq_none.mp hf c ((hmem c).mpr hc)
      simpa using this
    refine ⟨⟨fun _ => hnone, fun _ => rfl⟩, ?_, ?_⟩
    · intro c h
      exact absurd h (by simp)
    · intro c hc ht _ _
      rw [hnone c hc] at ht
      exact absurd ht (by simp)
  | some c0 =>
    obtain ⟨h1, h2, h3⟩ := find_sorted_some _ o _ hpw c0 hf
    refine ⟨⟨fun h => absurd h (by simp), fun h => ?_⟩, ?_, ?_⟩
    · rw [h c0 ((hmem c0).mp h1)] at h2
      exact absurd h2 (by simp)
    · intro c hc
      have hcc : c0 = c := by simpa using hc
      subst hcc
      exact ⟨(hmem c0).mp h1, h2, fun c' hc' => h3 c' ((hmem c').mpr hc')⟩
    · intro c hc ht hnear huniq
      have hle1 : ¬ (c.getPos2D - o).sqrLength < (c0.getPos2D - o).sqrLength := by
        intro hlt
        rw [h3 c ((hmem c).mpr hc) hlt] at ht
        exact absurd ht (by simp)
      have hle2 : ¬ (c0.getPos2D - o).sqrLength < (c.getPos2D - o).sqrLength := by
        intro hlt
        rw [hnear c0 ((hmem c0).mp h1) hlt] at h2
        exact absurd h2 (by simp)
      have heq : (c0.getPos2D - o).sqrLength = (c.getPos2D - o).sqrLength :=
        le_antisymm (not_lt.mp hle1) (not_lt.mp hle2)
      rw [huniq c0 ((hmem c0).mp h1) h2 heq]

/-- The executable sort meets the contract of `std::sort` for the distance comparison. -/
theorem insertionSortBy_sortsBy (o : Vector K) (l : List (GameObject K)) :
    SortsBy (closerTo o) l (insertionSortBy (closerTo o) l) := by
  haveI : IsTotal (GameObject K) (fun a b => closerTo o b a = false) :=
    ⟨fun a b => by
      simp only [closerTo, decide_eq_false_iff_not, not_lt]
      exact le_total _ _⟩
  haveI : IsTrans (GameObject K) (fun a b => closerTo o b a = false) :=
    ⟨fun a b c hab hbc => by
      simp only [closerTo, decide_eq_false_iff_not, not_lt] at hab hbc ⊢
      exact le_trans hab hbc⟩
  exact ⟨List.perm_insertionSort _ l, List.sorted_insertionSort _ l⟩

theorem ray100_pos : 0 < sqrtQ ((⟨100, 0⟩ : Vector ℚ) - ⟨0, 0⟩).sqrLength := by
  have e : ((100 : ℚ) - 0) * (100 - 0) + (0 - 0) * (0 - 0) = 100 * 100 := by norm_num
  simp only [Vector.sqrLength, Vector.sub_x, Vector.sub_y, e, sqrtQ_10000]
  norm_num

theorem ray100_sq : sqrtQ ((⟨100, 0⟩ : Vector ℚ) - ⟨0, 0⟩).sqrLength *
    sqrtQ ((⟨100, 0⟩ : Vector ℚ) - ⟨0, 0⟩).sqrLength =
      ((⟨100, 0⟩ : Vector ℚ) - ⟨0, 0⟩).sqrLength := by
  have e : ((100 : ℚ) - 0) * (100 - 0) + (0 - 0) * (0 - 0) = 100 * 100 := by norm_num
  simp only [Vector.sqrLength, Vector.sub_x, Vector.sub_y, e, sqrtQ_10000]

/-- The chord test of a circular candidate centred at `c` against the ray (0,0)-(100,0). -/
theorem circleChordTest_ray100 (obj : GameObject ℚ) :
    circleChordTest sqrtQ ⟨⟨0, 0⟩, ⟨100, 0⟩⟩ obj =
      if 0 < obj.pos2D.x ∧ obj.pos2D.x < 100 ∧ -35 < obj.pos2D.y ∧ obj.pos2D.y < 35
      then (true, ⟨obj.pos2D.x, 0⟩) else (false, ⟨0, 0⟩) := by
  rw [circleChordTest_eq sqrtQ ⟨0, 0⟩ ⟨100, 0⟩ obj ray100_pos ray100_sq]
  have e : ((100 : ℚ) - 0) * (100 - 0) + (0 - 0) * (0 - 0) = 100 * 100 := by norm_num
  simp only [Vector.sqrLength, Vector.dot, Vector.cross, Vector.sub_x, Vector.sub_y, e,
    sqrtQ_10000, enemyDrawSize]
  have hT : (0 + (obj.pos2D.x - 0) * (100 - 0) + (obj.pos2D.y - 0) * (0 - 0)) / (100 * 100)
      = obj.pos2D.x / 100 := by field_simp; ring
  have hS : (1 : ℚ) / 2 - ((100 - 0) * (obj.pos2D.y - 0) - (0 - 0) * (obj.pos2D.x - 0)) /
      (70 * 100) = 1 / 2 - obj.pos2D.y / 70 := by field_simp; ring
  rw [hT, hS]
  have hpt : (⟨0, 0⟩ : Vector ℚ) + Vector.mulf (⟨100, 0⟩ - ⟨0, 0⟩) (obj.pos2D.x / 100) =
      ⟨obj.pos2D.x, 0⟩ := by
    rw [Vector.eq_iff]
    simp only [Vector.add_x, Vector.add_y, Vector.mulf_x, Vector.mulf_y, Vector.sub_x,
      Vector.sub_y]
    constructor
    · field_simp
    · ring
  rw [hpt]
  have hc : (0 < obj.pos2D.x / 100 ∧ obj.pos2D.x / 100 < 1 ∧ 0 < 1 / 2 - obj.pos2D.y / 70 ∧
      1 / 2 - obj.pos2D.y / 70 < 1) ↔
      (0 < obj.pos2D.x ∧ obj.pos2D.x < 100 ∧ -35 < obj.pos2D.y ∧ obj.pos2D.y < 35) := by
    constructor
    · rintro ⟨h1, h2, h3, h4⟩
      refine ⟨?_, ?_, ?_, ?_⟩
      · by_contra hn; have := div_nonpos_of_nonpos_of_nonneg (not_lt.mp hn)
          (by norm_num : (0 : ℚ) ≤ 100); linarith
      · rw [div_lt_one (by norm_num)] at h2; exact h2
      · have : obj.pos2D.y / 70 > -(1 / 2) := by linarith
        rw [gt_iff_lt, lt_div_iff₀ (by norm_num)] at this; linarith
      · have : obj.pos2D.y / 70 < 1 / 2 := by linarith
        rw [div_lt_iff₀ (by norm_num)] at this; linarith
    · rintro ⟨h1, h2, h3, h4⟩
      refine ⟨by positivity, ?_, ?_, ?_⟩
      · rw [div_lt_one (by norm_num)]; exact h2
      · have : obj.pos2D.y / 70 < 1 / 2 := by
          rw [div_lt_iff₀ (by norm_num)]; linarith
        linarith
      · have : -(1 / 2) < obj.pos2D.y / 70 := by
          rw [lt_div_iff₀ (by norm_num)]; linarith
        linarith
  simp only [hc]

/-- Witness for claim C1: circular candidates at (60,0) and (30,0) on the ray (0,0)-(100,0);
the candidate at (30,0) is returned. -/
theorem getFirstObjectHitByRay_nearest_witness :
    getFirstObjectHitByRay insertionSortBy sqrtQ (fun _ => StaleReads.zero)
        [⟨true, ⟨60, 0⟩, ⟨0, 0⟩, [], 0⟩, ⟨true, ⟨30, 0⟩, ⟨0, 0⟩, [], 0⟩] ⟨0, 0⟩ ⟨100, 0⟩ =
      (true, some ⟨true, ⟨30, 0⟩, ⟨0, 0⟩, [], 0⟩) :=
  (getFirstObjectHitByRay_nearest insertionSortBy sqrtQ (fun _ => StaleReads.zero)
      [⟨true, ⟨60, 0⟩, ⟨0, 0⟩, [], 0⟩, ⟨true, ⟨30, 0⟩, ⟨0, 0⟩, [], 0⟩] ⟨0, 0⟩ ⟨100, 0⟩
      (insertionSortBy_sortsBy _ _)).2.2 ⟨true, ⟨30, 0⟩, ⟨0, 0⟩, [], 0⟩
    (by simp)
    (by norm_num [objectTest, circleChordTest_ray100])
    (by
      intro c' hc'
      simp only [List.mem_cons, List.mem_singleton, List.not_mem_nil, or_false] at hc'
      rcases hc' with rfl | rfl <;>
        norm_num [GameObject.getPos2D, Vector.sqrLength])
    (by
      intro c' hc'
      simp only [List.mem_cons, List.mem_singleton, List.not_mem_nil, or_false] at hc'
      rcases hc' with rfl | rfl <;>
        norm_num [GameObject.getPos2D, Vector.sqrLength])

/-- When the sorted candidate list starts with a candidate that passes its test, the query
returns that candidate. -/
theorem getFirstObjectHitByRay_head
    (sort : (GameObject K → GameObject K → Bool) → List (GameObject K) → List (GameObject K))
    (sqrtf : K → K) (reads : GameObject K → StaleReads K) (enemies : List (GameObject K))
    (o e : Vector K)
    (c : GameObject K) (rest : List (GameObject K))
    (hs : sort (closerTo o) enemies = c :: rest)
    (ht : objectTest sqrtf (reads c) ⟨o, e⟩ c = true) :
    getFirstObjectHitByRay sort sqrtf reads enemies o e = (true, some c) := by
  unfold getFirstObjectHitByRay
  simp only [hs, List.find?_cons, ht]

/-- Claim C1 as stated fails on ties.  Circular candidates at (30,10) and (30,-10) are equally
far from the origin and both are hit by the ray (0,0)-(100,0), so each of them is a hitting
candidate with no strictly nearer hitting candidate; the query returns only one of them
(the first with one admissible sort result, the second with the other). -/
theorem getFirstObjectHitByRay_tie :
    getFirstObjectHitByRay insertionSortBy sqrtQ (fun _ => StaleReads.zero)
        [⟨true, ⟨30, 10⟩, ⟨0, 0⟩, [], 0⟩, ⟨true, ⟨30, -10⟩, ⟨0, 0⟩, [], 0⟩] ⟨0, 0⟩ ⟨100, 0⟩ =
      (true, some ⟨true, ⟨30, 10⟩, ⟨0, 0⟩, [], 0⟩) ∧
    getFirstObjectHitByRay (fun _ l => l.reverse) sqrtQ (fun _ => StaleReads.zero)
        [⟨true, ⟨30, 10⟩, ⟨0, 0⟩, [], 0⟩, ⟨true, ⟨30, -10⟩, ⟨0, 0⟩, [], 0⟩] ⟨0, 0⟩ ⟨100, 0⟩ =
      (true, some ⟨true, ⟨30, -10⟩, ⟨0, 0⟩, [], 0⟩) ∧
    SortsBy (closerTo (⟨0, 0⟩ : Vector ℚ))
      [⟨true, ⟨30, 10⟩, ⟨0, 0⟩, [], 0⟩, ⟨true, ⟨30, -10⟩, ⟨0, 0⟩, [], 0⟩]
      [⟨true, ⟨30, -10⟩, ⟨0, 0⟩, [], 0⟩, ⟨true, ⟨30, 10⟩, ⟨0, 0⟩, [], 0⟩] ∧
    objectTest sqrtQ StaleReads.zero ⟨⟨0, 0⟩, ⟨100, 0⟩⟩ ⟨true, ⟨30, 10⟩, ⟨0, 0⟩, [], 0⟩ = true ∧
    objectTest sqrtQ StaleReads.zero ⟨⟨0, 0⟩, ⟨100, 0⟩⟩ ⟨true, ⟨30, -10⟩, ⟨0, 0⟩, [], 0⟩ = true ∧
    ((⟨true, ⟨30, 10⟩, ⟨0, 0⟩, [], 0⟩ : GameObject ℚ).getPos2D - ⟨0, 0⟩).sqrLength =
      ((⟨true, ⟨30, -10⟩, ⟨0, 0⟩, [], 0⟩ : GameObject ℚ).getPos2D - ⟨0, 0⟩).sqrLength ∧
    (⟨true, ⟨30, 10⟩, ⟨0, 0⟩, [], 0⟩ : GameObject ℚ) ≠ ⟨true, ⟨30, -10⟩, ⟨0, 0⟩, [], 0⟩ := by
  have t1 : objectTest sqrtQ StaleReads.zero ⟨⟨0, 0⟩, ⟨100, 0⟩⟩ ⟨true, ⟨30, 10⟩, ⟨0, 0⟩, [], 0⟩ = true := by
    norm_num [objectTest, circleChordTest_ray100]
  have t2 : objectTest sqrtQ StaleReads.zero ⟨⟨0, 0⟩, ⟨100, 0⟩⟩ ⟨true, ⟨30, -10⟩, ⟨0, 0⟩, [], 0⟩ = true := by
    norm_num [objectTest, circleChordTest_ray100]
  refine ⟨?_, ?_, ⟨?_, ?_⟩, t1, t2, ?_, ?_⟩
  · have hs : insertionSortBy (closerTo (⟨0, 0⟩ : Vector ℚ))
        [⟨true, ⟨30, 10⟩, ⟨0, 0⟩, [], 0⟩, ⟨true, ⟨30, -10⟩, ⟨0, 0⟩, [], 0⟩] =
        [⟨true, ⟨30, 10⟩, ⟨0, 0⟩, [], 0⟩, ⟨true, ⟨30, -10⟩, ⟨0, 0⟩, [], 0⟩] := by
      simp only [insertionSortBy, List.insertionSort, List.orderedInsert]
      rw [if_pos]
      norm_num [closerTo, GameObject.getPos2D, Vector.sqrLength]
    exact getFirstObjectHitByRay_head _ _ _ _ _ _ _ _ hs t1
  · exact getFirstObjectHitByRay_head _ _ _ _ _ _ _ _ rfl t2
  · exact List.Perm.swap _ _ _
  · norm_num [closerTo, GameObject.getPos2D, Vector.sqrLength]
  · norm_num [GameObject.getPos2D, Vector.sqrLength]
  · intro h
    have := congrArg (fun g : GameObject ℚ => g.pos2D.y) h
    norm_num at this

/-- Claim C5 as stated fails on the intersection point.  For the ray (0,0)-(100,0) and a
circular candidate at (50,0) the chord test succeeds, but the point it computes is the centre
(50,0): its x-coordinate is 50, not 50 minus the radius 35. -/
theorem circleChordTest_centre_point :
    (circleChordTest sqrtQ ⟨⟨0, 0⟩, ⟨100, 0⟩⟩ ⟨true, ⟨50, 0⟩, ⟨0, 0⟩, [], 0⟩).1 = true ∧
    (circleChordTest sqrtQ ⟨⟨0, 0⟩, ⟨100, 0⟩⟩ ⟨true, ⟨50, 0⟩, ⟨0, 0⟩, [], 0⟩).2 = ⟨50, 0⟩ ∧
    (circleChordTest sqrtQ ⟨⟨0, 0⟩, ⟨100, 0⟩⟩ ⟨true, ⟨50, 0⟩, ⟨0, 0⟩, [], 0⟩).2.x ≠
      50 - enemyDrawSize / 2 := by
  rw [circleChordTest_ray100]
  norm_num [enemyDrawSize]

/-- Claim C5 (amended).  For a circular candidate whose centre lies on the ray strictly between
origin and target (`sqrtf` returning the exact ray length), the query over that single candidate
reports a hit on it, and the intersection point the chord test computes is the centre itself. -/
theorem getFirstObjectHitByRay_circle_on_ray
    (sort : (GameObject K → GameObject K → Bool) → List (GameObject K) → List (GameObject K))
    (sqrtf : K → K) (reads : GameObject K → StaleReads K) (o e : Vector K)
    (obj : GameObject K) (k : K)
    (hcirc : obj.isCircle = true) (he : e ≠ o)
    (h0 : 0 ≤ (e - o).length sqrtf)
    (hsq : (e - o).length sqrtf * (e - o).length sqrtf = (e - o).sqrLength)
    (hk0 : 0 < k) (hk1 : k < 1) (hc : obj.pos2D = o + (e - o).mulf k)
    (hsort : SortsBy (closerTo o) [obj] (sort (closerTo o) [obj])) :
    getFirstObjectHitByRay sort sqrtf reads [obj] o e = (true, some obj) ∧
      circleChordTest sqrtf ⟨o, e⟩ obj = (true, obj.pos2D) := by
  have hlen : (e - o).length sqrtf = sqrtf (e - o).sqrLength := rfl
  rw [hlen] at h0 hsq
  have hpos := sqrtf_pos_of_ne sqrtf o e he h0 hsq
  have hq : (e - o).sqrLength ≠ 0 := by rw [← hsq]; exact mul_ne_zero (ne_of_gt hpos) (ne_of_gt hpos)
  have hT : (obj.pos2D - o).dot (e - o) / (e - o).sqrLength = k := by
    rw [div_eq_iff hq, hc]
    simp only [Vector.dot, Vector.sqrLength, Vector.sub_x, Vector.sub_y, Vector.add_x,
      Vector.add_y, Vector.mulf_x, Vector.mulf_y]
    ring
  have hX : (e - o).cross (obj.pos2D - o) = 0 := by
    rw [hc]
    simp only [Vector.cross, Vector.sub_x, Vector.sub_y, Vector.add_x,
      Vector.add_y, Vector.mulf_x, Vector.mulf_y]
    ring
  have hchord : circleChordTest sqrtf ⟨o, e⟩ obj = (true, obj.pos2D) := by
    rw [circleChordTest_eq sqrtf o e obj hpos hsq, hT, hX, zero_div, sub_zero,
      if_pos ⟨hk0, hk1, by norm_num, by norm_num⟩, ← hc]
  refine ⟨?_, hchord⟩
  have hl : sort (closerTo o) [obj] = [obj] := List.perm_singleton.mp hsort.1
  have ht : objectTest sqrtf (reads obj) ⟨o, e⟩ obj = true := by
    unfold objectTest
    rw [if_pos hcirc, hchord]
  unfold getFirstObjectHitByRay
  simp only [hl, List.find?_cons, ht]

/-- Witness for claim C5: the ray (0,0)-(100,0) and a circular candidate at (50,0). -/
theorem getFirstObjectHitByRay_circle_on_ray_witness :
    getFirstObjectHitByRay insertionSortBy sqrtQ (fun _ => StaleReads.zero) [⟨true, ⟨50, 0⟩, ⟨0, 0⟩, [], 0⟩]
        ⟨0, 0⟩ ⟨100, 0⟩ = (true, some ⟨true, ⟨50, 0⟩, ⟨0, 0⟩, [], 0⟩) ∧
      circleChordTest sqrtQ ⟨⟨0, 0⟩, ⟨100, 0⟩⟩ ⟨true, ⟨50, 0⟩, ⟨0, 0⟩, [], 0⟩ =
        (true, ⟨50, 0⟩) :=
  getFirstObjectHitByRay_circle_on_ray insertionSortBy sqrtQ (fun _ => StaleReads.zero) ⟨0, 0⟩ ⟨100, 0⟩
    ⟨true, ⟨50, 0⟩, ⟨0, 0⟩, [], 0⟩ (1 / 2) rfl (by simp [Vector.eq_iff])
    (le_of_lt ray100_pos) ray100_sq (by norm_num) (by norm_num)
    (by
      rw [Vector.eq_iff]
      simp only [Vector.add_x, Vector.add_y, Vector.mulf_x, Vector.mulf_y, Vector.sub_x,
        Vector.sub_y]
      constructor <;> norm_num)
    (insertionSortBy_sortsBy _ _)

end RayQuery

/-! ## Facts about the `GameObject` constructor -/

section Constructor

omit [LinearOrderedField K] in
/-- The edge loop, run for `r` iterations from counter `i` inside the bounds of `points`,
appends the edges `points[i + j] → points[i + j + 1]` for `j < r`, in order. -/
theorem edgeLoop_eq (points : List (Vector K)) (d : Vector K) :
    ∀ (r i : Nat) (acc : List (Line K)), i + r < points.length →
      edgeLoop points r i acc = some (acc ++ (List.range r).map fun j =>
        Line.mk (points[i + j]?.getD d) (points[i + j + 1]?.getD d)) := by
  intro r
  induction r with
  | zero => intro i acc _; simp [edgeLoop]
  | succ r ih =>
    intro i acc h
    have h1 : points[i]? = some points[i] := List.getElem?_eq_getElem (by omega)
    have h2 : points[i + 1]? = some points[i + 1] := List.getElem?_eq_getElem (by omega)
    rw [edgeLoop, h1, h2]
    simp only []
    rw [ih (i + 1) _ (by omega), List.range_succ_eq_map, List.map_cons, List.map_map]
    simp only [List.append_assoc, List.singleton_append, Nat.add_zero, h1, h2, Option.getD_some]
    congr 3
    apply List.map_congr_left
    intro j _
    simp only [Function.comp, Nat.succ_eq_add_one]
    rw [show i + 1 + j = i + (j + 1) by omega]

theorem generatePoints_length (cosf sinf : K → K) (PI : K) (nEdges : Int) :
    (generatePoints cosf sinf PI nEdges).length = nEdges.toNat := by
  simp [generatePoints]

/-- For `nEdges ≥ 2` the constructor completes and stores, in this order, the edges
`points[j] → points[j + 1]` for `j < nEdges - 1` followed by `points[0] → points[nEdges - 1]`. -/
theorem GameObject_new_polygon (cosf sinf : K → K) (PI : K) (newPos2D : Vector K)
    (nEdges : Int) (color : Nat) (h : 2 ≤ nEdges) (d : Vector K) :
    GameObject.new cosf sinf PI newPos2D nEdges color =
      some ⟨false, newPos2D, ⟨0, 0⟩,
        ((List.range (nEdges.toNat - 1)).map fun j =>
          Line.mk ((generatePoints cosf sinf PI nEdges)[j]?.getD d)
            ((generatePoints cosf sinf PI nEdges)[j + 1]?.getD d)) ++
        [Line.mk ((generatePoints cosf sinf PI nEdges)[0]?.getD d)
          ((generatePoints cosf sinf PI nEdges)[nEdges.toNat - 1]?.getD d)], color⟩ := by
  have hlen := generatePoints_length cosf sinf PI nEdges
  have hn : 2 ≤ nEdges.toNat := by omega
  have hnc : nEdges ≠ circleFlag := by unfold circleFlag; omega
  have hneg : ¬ nEdges < 0 := by omega
  have hlast : sizeMinusOne (generatePoints cosf sinf PI nEdges).length = nEdges.toNat - 1 := by
    unfold sizeMinusOne
    rw [hlen, if_neg (by omega)]
  unfold GameObject.new
  simp only [if_neg hnc, if_neg hneg, hlast]
  rw [edgeLoop_eq _ d (nEdges.toNat - 1) 0 [] (by omega)]
  have h1 : (generatePoints cosf sinf PI nEdges)[nEdges.toNat - 1]? =
      some (generatePoints cosf sinf PI nEdges)[nEdges.toNat - 1] :=
    List.getElem?_eq_getElem (by omega)
  have h2 : (generatePoints cosf sinf PI nEdges)[0]? =
      some (generatePoints cosf sinf PI nEdges)[0] :=
    List.getElem?_eq_getElem (by omega)
  simp only [h1, h2, List.nil_append, Nat.zero_add, Option.getD_some]

omit [LinearOrderedField K] in
theorem chain_getElem?_lt (f : Nat → Line K) (last : Line K) (m i : Nat) (h : i < m) :
    ((List.range m).map f ++ [last])[i]? = some (f i) := by
  rw [List.getElem?_append_left (by simpa using h), List.getElem?_map,
    List.getElem?_range h]
  rfl

omit [LinearOrderedField K] in
theorem chain_getElem?_last (f : Nat → Line K) (last : Line K) (m : Nat) :
    ((List.range m).map f ++ [last])[m]? = some last := by
  rw [List.getElem?_append_right (by simp)]
  simp

/-- Claim C9.  For every `nEdges ≥ 2` the constructor completes with a body that is not flagged
as a circle and stores exactly `nEdges` edges, as many as generated vertices; for the circle
sentinel `circleFlag` the body is flagged as a circle and its edge list is empty. -/
theorem GameObject_new_edge_count (cosf sinf : K → K) (PI : K) (newPos2D : Vector K)
    (color : Nat) (nEdges : Int) (h : 2 ≤ nEdges) :
    (∃ g, GameObject.new cosf sinf PI newPos2D nEdges color = some g ∧ g.isCircle = false ∧
      (g.edges.length : Int) = nEdges ∧
      g.edges.length = (generatePoints cosf sinf PI nEdges).length) ∧
    (∃ g, GameObject.new cosf sinf PI newPos2D circleFlag color = some g ∧ g.isCircle = true ∧
      g.edges = []) := by
  constructor
  · refine ⟨_, GameObject_new_polygon cosf sinf PI newPos2D nEdges color h ⟨0, 0⟩, rfl, ?_, ?_⟩
    · simp only [List.length_append, List.length_map, List.length_range, List.length_singleton]
      omega
    · simp only [List.length_append, List.length_map, List.length_range, List.length_singleton,
        generatePoints_length]
      omega
  · exact ⟨⟨true, newPos2D, ⟨0, 0⟩, [], color⟩, by simp [GameObject.new], rfl, rfl⟩

/-- Witness for claim C9: a square (`nEdges = 4`) in real arithmetic. -/
theorem GameObject_new_edge_count_witness :
    ∃ g, GameObject.new Real.cos Real.sin Real.pi ⟨0, 0⟩ 4 0 = some g ∧ g.isCircle = false ∧
      (g.edges.length : Int) = 4 ∧
      g.edges.length = (generatePoints Real.cos Real.sin Real.pi 4).length :=
  (GameObject_new_edge_count Real.cos Real.sin Real.pi ⟨0, 0⟩ 0 4 (by norm_num)).1

/-- Claim C10 (amended).  For every `nEdges ≥ 3` the first `nEdges - 1` stored edges form an
ordered chain (the second endpoint of edge `i` is the first endpoint of edge `i + 1`), and the
final edge joins the first and the last generated vertex, stored as running from the first
vertex to the last: its first endpoint is the first endpoint of edge 0 and its second endpoint
is the second endpoint of edge `nEdges - 2`. -/
theorem GameObject_new_chain (cosf sinf : K → K) (PI : K) (newPos2D : Vector K)
    (color : Nat) (nEdges : Int) (h : 3 ≤ nEdges) :
    ∃ g, GameObject.new cosf sinf PI newPos2D nEdges color = some g ∧
      g.edges.length = nEdges.toNat ∧
      (∀ i, i + 2 < nEdges.toNat → (g.edges[i]?).map Line.p2 = (g.edges[i + 1]?).map Line.p1) ∧
      (g.edges[nEdges.toNat - 1]?).map Line.p1 = (generatePoints cosf sinf PI nEdges)[0]? ∧
      (g.edges[nEdges.toNat - 1]?).map Line.p2 =
        (generatePoints cosf sinf PI nEdges)[nEdges.toNat - 1]? ∧
      (g.edges[nEdges.toNat - 1]?).map Line.p1 = (g.edges[0]?).map Line.p1 ∧
      (g.edges[nEdges.toNat - 1]?).map Line.p2 = (g.edges[nEdges.toNat - 2]?).map Line.p2 := by
  have hn : 3 ≤ nEdges.toNat := by omega
  have hlen := generatePoints_length cosf sinf PI nEdges
  have h0 : (generatePoints cosf sinf PI nEdges)[0]? =
      some (generatePoints cosf sinf PI nEdges)[0] := List.getElem?_eq_getElem (by omega)
  have hl : (generatePoints cosf sinf PI nEdges)[nEdges.toNat - 1]? =
      some (generatePoints cosf sinf PI nEdges)[nEdges.toNat - 1] :=
    List.getElem?_eq_getElem (by omega)
  refine ⟨_, GameObject_new_polygon cosf sinf PI newPos2D nEdges color (by omega) ⟨0, 0⟩,
    ?_, ?_, ?_, ?_, ?_, ?_⟩
  · simp only [List.length_append, List.length_map, List.length_range, List.length_singleton]
    omega
  · intro i hi
    simp only []
    rw [chain_getElem?_lt _ _ _ i (by omega), chain_getElem?_lt _ _ _ (i + 1) (by omega)]
    rfl
  · simp only []
    rw [chain_getElem?_last, h0]
    rfl
  · simp only []
    rw [chain_getElem?_last, hl]
    rfl
  · simp only []
    rw [chain_getElem?_last, chain_getElem?_lt _ _ _ 0 (by omega)]
    rfl
  · simp only []
    rw [chain_getElem?_last, chain_getElem?_lt _ _ _ (nEdges.toNat - 2) (by omega)]
    simp only [Option.map_some']
    rw [show nEdges.toNat - 2 + 1 = nEdges.toNat - 1 by omega]

/-- Witness for claim C10: a square (`nEdges = 4`) in real arithmetic. -/
theorem GameObject_new_chain_witness :
    ∃ g, GameObject.new Real.cos Real.sin Real.pi ⟨0, 0⟩ 4 0 = some g ∧
      g.edges.length = 4 ∧
      (∀ i, i + 2 < 4 → (g.edges[i]?).map Line.p2 = (g.edges[i + 1]?).map Line.p1) ∧
      (g.edges[3]?).map Line.p1 = (generatePoints Real.cos Real.sin Real.pi 4)[0]? ∧
      (g.edges[3]?).map Line.p2 = (generatePoints Real.cos Real.sin Real.pi 4)[3]? ∧
      (g.edges[3]?).map Line.p1 = (g.edges[0]?).map Line.p1 ∧
      (g.edges[3]?).map Line.p2 = (g.edges[2]?).map Line.p2 :=
  GameObject_new_chain Real.cos Real.sin Real.pi ⟨0, 0⟩ 0 4 (by norm_num)

/-- The vertices of the square (`nEdges = 4`) in real arithmetic. -/
theorem generatePoints_four :
    generatePoints Real.cos Real.sin Real.pi 4 = [⟨1, 0⟩, ⟨0, 1⟩, ⟨-1, 0⟩, ⟨0, -1⟩] := by
  have hr : List.range (4 : Int).toNat = [0, 1, 2, 3] := rfl
  have hs : (if (4 : Int) % 2 = 1 then 0 + Real.pi / ((4 : Int) : ℝ) else 0) = 0 := by
    rw [if_neg (by decide)]
  have b1 : TWO_PI Real.pi / 4 = Real.pi / 2 := by simp only [TWO_PI]; ring
  have b2 : 2 * (Real.pi / 2) = Real.pi := by ring
  have b3 : 3 * (Real.pi / 2) = Real.pi + Real.pi / 2 := by ring
  unfold generatePoints
  simp only [hr, hs, List.map_cons, List.map_nil]
  norm_num
  rw [b1, b2, b3]
  simp only [Real.cos_pi_div_two, Real.sin_pi_div_two, Real.cos_pi, Real.sin_pi, Real.cos_add,
    Real.sin_add]
  norm_num

/-- Claim C10 as stated fails at the final edge.  For the square (`nEdges = 4`, vertices
(1,0), (0,1), (-1,0), (0,-1)) the final edge is stored as (1,0) → (0,-1): the second endpoint
(0,-1) of edge 2 is not the first endpoint (1,0) of edge 3, and the second endpoint (0,-1) of
edge 3 is not the first endpoint (1,0) of edge 0. -/
theorem GameObject_new_square_not_chain :
    ∃ g, GameObject.new Real.cos Real.sin Real.pi ⟨0, 0⟩ 4 0 = some g ∧
      g.edges = [⟨⟨1, 0⟩, ⟨0, 1⟩⟩, ⟨⟨0, 1⟩, ⟨-1, 0⟩⟩, ⟨⟨-1, 0⟩, ⟨0, -1⟩⟩, ⟨⟨1, 0⟩, ⟨0, -1⟩⟩] ∧
      (g.edges[2]?).map Line.p2 ≠ (g.edges[3]?).map Line.p1 ∧
      (g.edges[3]?).map Line.p2 ≠ (g.edges[0]?).map Line.p1 := by
  refine ⟨_, GameObject_new_polygon Real.cos Real.sin Real.pi ⟨0, 0⟩ 4 0 (by norm_num) ⟨0, 0⟩,
    ?_, ?_, ?_⟩
  · simp only [generatePoints_four]
    rfl
  · simp only [generatePoints_four]
    have : (4 : Int).toNat - 1 = 3 := rfl
    simp [this, List.range_succ, Vector.eq_iff]
  · simp only [generatePoints_four]
    have : (4 : Int).toNat - 1 = 3 := rfl
    simp [this, List.range_succ, Vector.eq_iff]

end Constructor

/-! ## The zero-length ray -/

section ZeroRay

end ZeroRay

/-! ## Facts about `lerp` -/

section Lerp

end Lerp

/-! ## World-space and local-space edges -/

section Edges

/-- The world edges in terms of what the stale references deliver: as many as are stored, the
`i`-th built from the `i`-th pair of reads moved by the position. -/
theorem getEdges_GlobalPosition_getElem? (reads : Nat → Vector K × Vector K) (g : GameObject K) :
    (g.getEdges_GlobalPosition reads).length = g.edges.length ∧
    ∀ i : Nat, i < g.edges.length →
      (g.getEdges_GlobalPosition reads)[i]? =
        some (Line.mk ((reads i).1 + g.pos2D) ((reads i).2 + g.pos2D)) := by
  constructor
  · simp only [GameObject.getEdges_GlobalPosition, List.length_map, List.enum_length]
  · intro i hi
    simp only [GameObject.getEdges_GlobalPosition, List.getElem?_map, List.enum_eq_enumFrom,
      List.getElem?_enumFrom, List.getElem?_eq_getElem hi, Option.map_some', zero_add]

/-- Claim C13, evaluated at the body at (10,20) that stores the single edge (0,0)-(1,0).
`getEdges_GlobalPosition` builds its edge from the two stale references, not from the stored
endpoints: whatever they deliver is moved by the position.  When both deliver (7,7) the world
edge is (17,27)-(17,27), not the stored edge moved by the position, (10,20)-(11,20).
`getEdges_RelativePosition` returns the stored edges, and `translatePos2D` leaves the stored
edges as they are and moves the position. -/
theorem getEdges_spec :
    (∀ reads : Nat → Vector ℚ × Vector ℚ,
      GameObject.getEdges_GlobalPosition reads
          ⟨false, ⟨10, 20⟩, ⟨0, 0⟩, [⟨⟨0, 0⟩, ⟨1, 0⟩⟩], 0⟩ =
        [Line.mk ((reads 0).1 + ⟨10, 20⟩) ((reads 0).2 + ⟨10, 20⟩)]) ∧
    GameObject.getEdges_GlobalPosition (fun _ => ((⟨7, 7⟩ : Vector ℚ), (⟨7, 7⟩ : Vector ℚ)))
        ⟨false, ⟨10, 20⟩, ⟨0, 0⟩, [⟨⟨0, 0⟩, ⟨1, 0⟩⟩], 0⟩ = [⟨⟨17, 27⟩, ⟨17, 27⟩⟩] ∧
    (GameObject.mk false (⟨10, 20⟩ : Vector ℚ) ⟨0, 0⟩ [⟨⟨0, 0⟩, ⟨1, 0⟩⟩] 0).edges.map
        (fun (l : Line ℚ) => Line.mk (l.p1 + ⟨10, 20⟩) (l.p2 + ⟨10, 20⟩)) =
      [⟨⟨10, 20⟩, ⟨11, 20⟩⟩] ∧
    ([⟨⟨17, 27⟩, ⟨17, 27⟩⟩] : List (Line ℚ)) ≠ [⟨⟨10, 20⟩, ⟨11, 20⟩⟩] ∧
    (GameObject.mk false (⟨10, 20⟩ : Vector ℚ) ⟨0, 0⟩ [⟨⟨0, 0⟩, ⟨1, 0⟩⟩] 0).getEdges_RelativePosition =
      [⟨⟨0, 0⟩, ⟨1, 0⟩⟩] ∧
    ((GameObject.mk false (⟨10, 20⟩ : Vector ℚ) ⟨0, 0⟩ [⟨⟨0, 0⟩, ⟨1, 0⟩⟩] 0).translatePos2D
        ⟨1, 1⟩).edges = [⟨⟨0, 0⟩, ⟨1, 0⟩⟩] ∧
    ((GameObject.mk false (⟨10, 20⟩ : Vector ℚ) ⟨0, 0⟩ [⟨⟨0, 0⟩, ⟨1, 0⟩⟩] 0).translatePos2D
        ⟨1, 1⟩).pos2D = ⟨11, 21⟩ := by
  refine ⟨fun reads => rfl, ?_, ?_, ?_, rfl, rfl, ?_⟩
  · simp only [GameObject.getEdges_GlobalPosition, List.enum_cons, List.enum_nil, List.map_cons,
      List.map_nil, List.cons.injEq, Line.mk.injEq, Vector.eq_iff, Vector.add_x, Vector.add_y]
    norm_num
  · simp only [List.map_cons, List.map_nil, List.cons.injEq, Line.mk.injEq, Vector.eq_iff,
      Vector.add_x, Vector.add_y]
    norm_num
  · intro h
    simp only [List.cons.injEq, Line.mk.injEq, Vector.eq_iff] at h
    norm_num at h
  · simp only [GameObject.translatePos2D, Vector.addAssign, Vector.eq_iff, Vector.add_x,
      Vector.add_y]
    norm_num

end Edges

/-! ## Vertices and adjacency of the generated polygon -/

section Polygon

theorem generatePoints_getElem? (cosf sinf : K → K) (PI : K) (nEdges : Int) (k : Nat)
    (hk : k < nEdges.toNat) :
    (generatePoints cosf sinf PI nEdges)[k]? =
      some ⟨cosf ((if nEdges % 2 = 1 then 0 + PI / (nEdges : K) else 0) +
          (k : K) * (TWO_PI PI / (nEdges : K))),
        sinf ((if nEdges % 2 = 1 then 0 + PI / (nEdges : K) else 0) +
          (k : K) * (TWO_PI PI / (nEdges : K)))⟩ := by
  unfold generatePoints
  simp only [List.getElem?_map, List.getElem?_range hk, Option.map_some']

/-- Claim C12.  For every `nEdges ≥ 2` and every vertex index `k`, the stored edge list
contains an edge whose endpoints are, in some order, vertex `k` and vertex
`(k + 1) mod nEdges`. -/
theorem GameObject_new_adjacent (cosf sinf : K → K) (PI : K) (newPos2D : Vector K)
    (color : Nat) (nEdges : Int) (h : 2 ≤ nEdges) :
    ∃ g, GameObject.new cosf sinf PI newPos2D nEdges color = some g ∧
      ∀ k, k < nEdges.toNat → ∃ e ∈ g.edges, ∃ a b,
        (generatePoints cosf sinf PI nEdges)[k]? = some a ∧
        (generatePoints cosf sinf PI nEdges)[(k + 1) % nEdges.toNat]? = some b ∧
        ((e.p1 = a ∧ e.p2 = b) ∨ (e.p1 = b ∧ e.p2 = a)) := by
  have hn : 2 ≤ nEdges.toNat := by omega
  have hlen := generatePoints_length cosf sinf PI nEdges
  have hget : ∀ j, j < nEdges.toNat → (generatePoints cosf sinf PI nEdges)[j]? =
      some ((generatePoints cosf sinf PI nEdges)[j]?.getD ⟨0, 0⟩) := by
    intro j hj
    rw [List.getElem?_eq_getElem (by omega)]
    rfl
  refine ⟨_, GameObject_new_polygon cosf sinf PI newPos2D nEdges color h ⟨0, 0⟩, ?_⟩
  intro k hk
  by_cases hlast : k + 1 < nEdges.toNat
  · refine ⟨_, List.getElem?_mem (chain_getElem?_lt _ _ (nEdges.toNat - 1) k (by omega)),
      _, _, hget k hk, ?_, Or.inl ⟨rfl, rfl⟩⟩
    rw [Nat.mod_eq_of_lt hlast]
    exact hget (k + 1) hlast
  · have hk' : k = nEdges.toNat - 1 := by omega
    refine ⟨_, List.getElem?_mem (chain_getElem?_last _ _ (nEdges.toNat - 1)),
      _, _, ?_, ?_, Or.inr ⟨rfl, rfl⟩⟩
    · rw [hk']
      exact hget _ (by omega)
    · have : (k + 1) % nEdges.toNat = 0 := by
        rw [hk', show nEdges.toNat - 1 + 1 = nEdges.toNat by omega, Nat.mod_self]
      rw [this]
      exact hget 0 (by omega)

/-- Witness for claim C12: a square (`nEdges = 4`) in real arithmetic. -/
theorem GameObject_new_adjacent_witness :
    ∃ g, GameObject.new Real.cos Real.sin Real.pi ⟨0, 0⟩ 4 0 = some g ∧
      ∀ k, k < 4 → ∃ e ∈ g.edges, ∃ a b,
        (generatePoints Real.cos Real.sin Real.pi 4)[k]? = some a ∧
        (generatePoints Real.cos Real.sin Real.pi 4)[(k + 1) % 4]? = some b ∧
        ((e.p1 = a ∧ e.p2 = b) ∨ (e.p1 = b ∧ e.p2 = a)) :=
  GameObject_new_adjacent Real.cos Real.sin Real.pi ⟨0, 0⟩ 0 4 (by norm_num)

/-- Claim C11.  For every `nEdges ≥ 2`, with `cosf`, `sinf` satisfying `cos² + sin² = 1` and
`sqrtf 1 = 1`: the `k`-th generated vertex is `(cos (a0 + k·2·PI/nEdges), sin (a0 + k·2·PI/nEdges))`
with `a0 = PI/nEdges` for odd `nEdges` and `a0 = 0` for even `nEdges`; the constructor completes
with a body that stores `nEdges` edges, the `i`-th (`i < nEdges - 1`) running from generated
vertex `i` to generated vertex `i + 1` and the last from vertex 0 to vertex `nEdges - 1`; and
both endpoints of every stored edge have length exactly 1. -/
theorem generatePoints_unit_circle (cosf sinf sqrtf : K → K) (PI : K) (newPos2D : Vector K)
    (color : Nat) (nEdges : Int) (h : 2 ≤ nEdges)
    (hcs : ∀ x, cosf x * cosf x + sinf x * sinf x = 1) (hs1 : sqrtf 1 = 1) :
    (∀ k : Nat, k < nEdges.toNat → (generatePoints cosf sinf PI nEdges)[k]? =
      some ⟨cosf ((if nEdges % 2 = 1 then PI / (nEdges : K) else 0) +
          (k : K) * 2 * PI / (nEdges : K)),
        sinf ((if nEdges % 2 = 1 then PI / (nEdges : K) else 0) +
          (k : K) * 2 * PI / (nEdges : K))⟩) ∧
    ∃ g, GameObject.new cosf sinf PI newPos2D nEdges color = some g ∧
      g.edges.length = nEdges.toNat ∧
      (∀ i : Nat, i + 1 < nEdges.toNat →
        (g.edges[i]?).map Line.p1 = (generatePoints cosf sinf PI nEdges)[i]? ∧
        (g.edges[i]?).map Line.p2 = (generatePoints cosf sinf PI nEdges)[i + 1]?) ∧
      (g.edges[nEdges.toNat - 1]?).map Line.p1 = (generatePoints cosf sinf PI nEdges)[0]? ∧
      (g.edges[nEdges.toNat - 1]?).map Line.p2 =
        (generatePoints cosf sinf PI nEdges)[nEdges.toNat - 1]? ∧
      ∀ e ∈ g.edges, e.p1.length sqrtf = 1 ∧ e.p2.length sqrtf = 1 := by
  have hn : 2 ≤ nEdges.toNat := by omega
  have hlen := generatePoints_length cosf sinf PI nEdges
  have hget : ∀ j, j < nEdges.toNat → (generatePoints cosf sinf PI nEdges)[j]? =
      some ((generatePoints cosf sinf PI nEdges)[j]?.getD ⟨0, 0⟩) := by
    intro j hj
    rw [List.getElem?_eq_getElem (by omega)]
    rfl
  have hunit : ∀ j, j < nEdges.toNat →
      ((generatePoints cosf sinf PI nEdges)[j]?.getD ⟨0, 0⟩).length sqrtf = 1 := by
    intro j hj
    rw [generatePoints_getElem? cosf sinf PI nEdges j hj]
    simp only [Option.getD_some, Vector.length, hcs, hs1]
  constructor
  · intro k hk
    rw [generatePoints_getElem? cosf sinf PI nEdges k hk]
    have hang : (if nEdges % 2 = 1 then 0 + PI / (nEdges : K) else 0) +
        (k : K) * (TWO_PI PI / (nEdges : K)) =
        (if nEdges % 2 = 1 then PI / (nEdges : K) else 0) + (k : K) * 2 * PI / (nEdges : K) := by
      unfold TWO_PI
      split_ifs <;> ring
    rw [hang]
  · refine ⟨_, GameObject_new_polygon cosf sinf PI newPos2D nEdges color h ⟨0, 0⟩,
      ?_, ?_, ?_, ?_, ?_⟩
    · simp only [List.length_append, List.length_map, List.length_range, List.length_singleton]
      omega
    · intro i hi
      simp only []
      rw [chain_getElem?_lt _ _ _ i (by omega), hget i (by omega), hget (i + 1) hi]
      exact ⟨rfl, rfl⟩
    · simp only []
      rw [chain_getElem?_last, hget 0 (by omega)]
      rfl
    · simp only []
      rw [chain_getElem?_last, hget (nEdges.toNat - 1) (by omega)]
      rfl
    · intro e he
      simp only [List.mem_append, List.mem_map, List.mem_range, List.mem_singleton] at he
      rcases he with ⟨j, hj, rfl⟩ | rfl
      · exact ⟨hunit j (by omega), hunit (j + 1) (by omega)⟩
      · exact ⟨hunit 0 (by omega), hunit (nEdges.toNat - 1) (by omega)⟩

/-- Witness for claim C11: in real arithmetic `nEdges = 4` gives the vertices (1,0), (0,1),
(-1,0), (0,-1); the body stores the four edges (1,0)-(0,1), (0,1)-(-1,0), (-1,0)-(0,-1) and
(1,0)-(0,-1), and every endpoint has length 1. -/
theorem generatePoints_unit_circle_witness :
    generatePoints Real.cos Real.sin Real.pi 4 = [⟨1, 0⟩, ⟨0, 1⟩, ⟨-1, 0⟩, ⟨0, -1⟩] ∧
      ∃ g, GameObject.new Real.cos Real.sin Real.pi ⟨0, 0⟩ 4 0 = some g ∧
        g.edges = [⟨⟨1, 0⟩, ⟨0, 1⟩⟩, ⟨⟨0, 1⟩, ⟨-1, 0⟩⟩, ⟨⟨-1, 0⟩, ⟨0, -1⟩⟩, ⟨⟨1, 0⟩, ⟨0, -1⟩⟩] ∧
        g.edges.length = 4 ∧
        ∀ e ∈ g.edges, e.p1.length Real.sqrt = 1 ∧ e.p2.length Real.sqrt = 1 := by
  obtain ⟨-, g, hg, hlen, -, -, -, hunit⟩ :=
    generatePoints_unit_circle Real.cos Real.sin Real.sqrt Real.pi ⟨0, 0⟩ 0 4 (by norm_num)
      (fun x => by rw [← sq, ← sq]; exact Real.cos_sq_add_sin_sq x) Real.sqrt_one
  refine ⟨generatePoints_four, g, hg, ?_, hlen, hunit⟩
  rw [GameObject_new_polygon Real.cos Real.sin Real.pi ⟨0, 0⟩ 4 0 (by norm_num) ⟨0, 0⟩] at hg
  rw [← Option.some.inj hg]
  simp only [generatePoints_four]
  rfl

end Polygon

/-! ## Facts about `projected_Point_On_Line` -/

section Projection

theorem getLengthSqr_ne_zero (line : Line K) (h : line.p1 ≠ line.p2) :
    line.getLengthSqr ≠ 0 := by
  intro hz
  simp only [Line.getLengthSqr, Vector.sub_x, Vector.sub_y] at hz
  have h1 : line.p2.x - line.p1.x = 0 := by
    nlinarith [mul_self_nonneg (line.p2.x - line.p1.x), mul_self_nonneg (line.p2.y - line.p1.y)]
  have h2 : line.p2.y - line.p1.y = 0 := by
    nlinarith [mul_self_nonneg (line.p2.x - line.p1.x), mul_self_nonneg (line.p2.y - line.p1.y)]
  apply h
  rw [Vector.eq_iff]
  exact ⟨(sub_eq_zero.mp h1).symm, (sub_eq_zero.mp h2).symm⟩

/-- For a line with distinct endpoints the projection is `p1 + (p2 - p1) * m` with
`m = dot (p - p1) (p2 - p1) / |p2 - p1|²`. -/
theorem projected_Point_On_Line_eq (p : Vector K) (line : Line K) (h : line.p1 ≠ line.p2) :
    projected_Point_On_Line p line = some (line.p1 + (line.p2 - line.p1).mulf
      ((p - line.p1).dot (line.p2 - line.p1) / line.getLengthSqr)) := by
  unfold projected_Point_On_Line fdiv
  simp only [if_neg (getLengthSqr_ne_zero line h), Line.getPoints]
  rfl

/-- Claim C14.  For a line with distinct endpoints `p1 ≠ p2` and every point `p`, the result of
`projected_Point_On_Line` lies on the infinite line through `p1` and `p2` and no point
`p1 + k (p2 - p1)` of that line is nearer to `p`: neither in squared distance nor, for a
monotone `sqrtf`, in distance. -/
theorem projected_Point_On_Line_closest (sqrtf : K → K) (p : Vector K) (line : Line K)
    (h : line.p1 ≠ line.p2) (hmono : ∀ a b : K, 0 ≤ a → a ≤ b → sqrtf a ≤ sqrtf b) :
    ∃ r, projected_Point_On_Line p line = some r ∧
      (∃ m : K, r = line.p1 + (line.p2 - line.p1).mulf m) ∧
      ∀ k : K,
        (p - r).sqrLength ≤ (p - (line.p1 + (line.p2 - line.p1).mulf k)).sqrLength ∧
        (p - r).length sqrtf ≤ (p - (line.p1 + (line.p2 - line.p1).mulf k)).length sqrtf := by
  refine ⟨_, projected_Point_On_Line_eq p line h, ⟨_, rfl⟩, ?_⟩
  intro k
  have hq := getLengthSqr_ne_zero line h
  generalize hm : (p - line.p1).dot (line.p2 - line.p1) / line.getLengthSqr = m
  rw [div_eq_iff hq] at hm
  simp only [Vector.dot, Line.getLengthSqr, Vector.sub_x, Vector.sub_y] at hm
  have key : (p - (line.p1 + (line.p2 - line.p1).mulf k)).sqrLength =
      (p - (line.p1 + (line.p2 - line.p1).mulf m)).sqrLength +
        (k - m) * (k - m) * line.getLengthSqr := by
    simp only [Vector.sqrLength, Line.getLengthSqr, Vector.sub_x, Vector.sub_y, Vector.add_x,
      Vector.add_y, Vector.mulf_x, Vector.mulf_y]
    linear_combination (-2 * (k - m)) * hm
  have hq0 : 0 ≤ line.getLengthSqr :=
    add_nonneg (mul_self_nonneg _) (mul_self_nonneg _)
  have hle : (p - (line.p1 + (line.p2 - line.p1).mulf m)).sqrLength ≤
      (p - (line.p1 + (line.p2 - line.p1).mulf k)).sqrLength := by
    rw [key]
    have := mul_nonneg (mul_self_nonneg (k - m)) hq0
    linarith
  refine ⟨hle, ?_⟩
  have h0 : 0 ≤ (p - (line.p1 + (line.p2 - line.p1).mulf m)).sqrLength :=
    add_nonneg (mul_self_nonneg _) (mul_self_nonneg _)
  exact hmono _ _ h0 hle

/-- Witness for claim C14: projecting (1,1) onto the line through (0,0) and (2,0), in real
arithmetic. -/
theorem projected_Point_On_Line_closest_witness :
    ∃ r, projected_Point_On_Line (⟨1, 1⟩ : Vector ℝ) ⟨⟨0, 0⟩, ⟨2, 0⟩⟩ = some r ∧
      (∃ m : ℝ, r = (⟨0, 0⟩ : Vector ℝ) + Vector.mulf (⟨2, 0⟩ - ⟨0, 0⟩) m) ∧
      ∀ k : ℝ,
        ((⟨1, 1⟩ : Vector ℝ) - r).sqrLength ≤
          ((⟨1, 1⟩ : Vector ℝ) - (⟨0, 0⟩ + Vector.mulf (⟨2, 0⟩ - ⟨0, 0⟩) k)).sqrLength ∧
        ((⟨1, 1⟩ : Vector ℝ) - r).length Real.sqrt ≤
          ((⟨1, 1⟩ : Vector ℝ) - (⟨0, 0⟩ + Vector.mulf (⟨2, 0⟩ - ⟨0, 0⟩) k)).length Real.sqrt :=
  projected_Point_On_Line_closest Real.sqrt ⟨1, 1⟩ ⟨⟨0, 0⟩, ⟨2, 0⟩⟩
    (by simp [Vector.eq_iff]) (fun _ _ _ hab => Real.sqrt_le_sqrt hab)

/-- Projecting a point displaced perpendicularly from a point of the line gives that point. -/
theorem projected_Point_On_Line_perp (line : Line K) (h : line.p1 ≠ line.p2) (m k : K) :
    projected_Point_On_Line
        (line.p1 + (line.p2 - line.p1).mulf m +
          Vector.mulf ⟨-(line.p2 - line.p1).y, (line.p2 - line.p1).x⟩ k) line =
      some (line.p1 + (line.p2 - line.p1).mulf m) := by
  rw [projected_Point_On_Line_eq _ line h]
  have hq := getLengthSqr_ne_zero line h
  have hm : (line.p1 + (line.p2 - line.p1).mulf m +
      Vector.mulf ⟨-(line.p2 - line.p1).y, (line.p2 - line.p1).x⟩ k - line.p1).dot
        (line.p2 - line.p1) / line.getLengthSqr = m := by
    rw [div_eq_iff hq]
    simp only [Vector.dot, Line.getLengthSqr, Vector.sub_x, Vector.sub_y, Vector.add_x,
      Vector.add_y, Vector.mulf_x, Vector.mulf_y]
    ring
  rw [hm]

/-- Claim C15.  For a line with distinct endpoints, every point `q = p1 + m (p2 - p1)` of the
infinite line through them and every `k`: projecting `q + k * perp`, with
`perp = (-(p2 - p1).y, (p2 - p1).x)`, returns `q`; in particular this holds for the midpoint
`(p1 + p2) / 2`. -/
theorem projected_Point_On_Line_perp_foot (line : Line K) (h : line.p1 ≠ line.p2) (q : Vector K)
    (m k : K) (hq : q = line.p1 + (line.p2 - line.p1).mulf m) :
    projected_Point_On_Line
        (q + Vector.mulf ⟨-(line.p2 - line.p1).y, (line.p2 - line.p1).x⟩ k) line = some q ∧
    projected_Point_On_Line
        ((line.p1 + line.p2).divf 2 +
          Vector.mulf ⟨-(line.p2 - line.p1).y, (line.p2 - line.p1).x⟩ k) line =
      some ((line.p1 + line.p2).divf 2) := by
  constructor
  · rw [hq]
    exact projected_Point_On_Line_perp line h m k
  · have hmid : (line.p1 + line.p2).divf 2 = line.p1 + (line.p2 - line.p1).mulf (1 / 2) := by
      rw [Vector.eq_iff]
      simp only [Vector.divf_x, Vector.divf_y, Vector.add_x, Vector.add_y, Vector.mulf_x,
        Vector.mulf_y, Vector.sub_x, Vector.sub_y]
      constructor <;> ring
    rw [hmid]
    exact projected_Point_On_Line_perp line h (1 / 2) k

/-- Witness for claim C15: the line (0,0)-(4,0), its midpoint (2,0) and the point (2,12). -/
theorem projected_Point_On_Line_perp_foot_witness :
    projected_Point_On_Line
        ((⟨2, 0⟩ : Vector ℚ) + Vector.mulf ⟨-((⟨4, 0⟩ : Vector ℚ) - ⟨0, 0⟩).y,
          ((⟨4, 0⟩ : Vector ℚ) - ⟨0, 0⟩).x⟩ 3) ⟨⟨0, 0⟩, ⟨4, 0⟩⟩ = some ⟨2, 0⟩ :=
  (projected_Point_On_Line_perp_foot ⟨⟨0, 0⟩, ⟨4, 0⟩⟩ (by simp [Vector.eq_iff]) ⟨2, 0⟩
    (1 / 2) 3 (by
      rw [Vector.eq_iff]
      simp only [Vector.add_x, Vector.add_y, Vector.mulf_x, Vector.mulf_y, Vector.sub_x,
        Vector.sub_y]
      constructor <;> norm_num)).1

end Projection

/-! ## Normalisation and rotation -/

section Rotation

theorem sqrtf_pos_of_ne_zero (sqrtf : K → K) (v : Vector K) (hv : v ≠ ⟨0, 0⟩)
    (h0 : 0 ≤ v.length sqrtf) (hsq : v.length sqrtf * v.length sqrtf = v.sqrLength) :
    0 < v.length sqrtf := by
  rcases h0.lt_or_eq with h | h
  · exact h
  · exfalso
    rw [← h, mul_zero] at hsq
    have hx : v.x * v.x + v.y * v.y = 0 := hsq.symm
    have h1 : v.x = 0 := by nlinarith [mul_self_nonneg v.x, mul_self_nonneg v.y]
    have h2 : v.y = 0 := by nlinarith [mul_self_nonneg v.x, mul_self_nonneg v.y]
    apply hv
    rw [Vector.eq_iff]
    exact ⟨h1, h2⟩

/-- With a positive length, `toUnitVec` divides both components by that length. -/
theorem toUnitVec_eq (sqrtf : K → K) (v : Vector K) (hpos : 0 < v.length sqrtf) :
    v.toUnitVec sqrtf = some (v.divf (v.length sqrtf)) := by
  have hL : sqrtf (v.x * v.x + v.y * v.y) ≠ 0 := ne_of_gt hpos
  unfold Vector.toUnitVec returnVectorLength fdiv
  simp only [if_neg hL]
  rfl

/-- A vector divided by its exact, positive length has length 1. -/
theorem divf_length (sqrtf : K → K) (v : Vector K) (hpos : 0 < v.length sqrtf)
    (hsq : v.length sqrtf * v.length sqrtf = v.sqrLength) (hs1 : sqrtf 1 = 1) :
    (v.divf (v.length sqrtf)).length sqrtf = 1 := by
  have hL : v.length sqrtf ≠ 0 := ne_of_gt hpos
  have harg : (v.divf (v.length sqrtf)).x * (v.divf (v.length sqrtf)).x +
      (v.divf (v.length sqrtf)).y * (v.divf (v.length sqrtf)).y = 1 := by
    simp only [Vector.divf_x, Vector.divf_y]
    have hsq' : v.length sqrtf * v.length sqrtf = v.x * v.x + v.y * v.y := hsq
    field_simp
    linear_combination -hsq'
  show sqrtf _ = 1
  rw [harg, hs1]

/-- Claim C18.  For every `v ≠ (0,0)`, with `sqrtf` exact at `|v|²` and at 1: `toUnitVec` leaves
`v` divided by its original length, a vector of length 1, and `getUnitVec` returns the same
value and leaves `v` as it was. -/
theorem toUnitVec_spec (sqrtf : K → K) (v : Vector K) (hv : v ≠ ⟨0, 0⟩)
    (h0 : 0 ≤ v.length sqrtf) (hsq : v.length sqrtf * v.length sqrtf = v.sqrLength)
    (hs1 : sqrtf 1 = 1) :
    v.toUnitVec sqrtf = some (v.divf (v.length sqrtf)) ∧
    (v.divf (v.length sqrtf)).length sqrtf = 1 ∧
    v.getUnitVec sqrtf = (some (v.divf (v.length sqrtf)), v) := by
  have hpos := sqrtf_pos_of_ne_zero sqrtf v hv h0 hsq
  refine ⟨toUnitVec_eq sqrtf v hpos, divf_length sqrtf v hpos hsq hs1, ?_⟩
  unfold Vector.getUnitVec fdiv
  simp only [if_neg (ne_of_gt hpos)]
  rfl

/-- Witness for claim C18: the vector (3,4) in real arithmetic. -/
theorem toUnitVec_spec_witness :
    (⟨3, 4⟩ : Vector ℝ).toUnitVec Real.sqrt =
        some ((⟨3, 4⟩ : Vector ℝ).divf ((⟨3, 4⟩ : Vector ℝ).length Real.sqrt)) ∧
      ((⟨3, 4⟩ : Vector ℝ).divf ((⟨3, 4⟩ : Vector ℝ).length Real.sqrt)).length Real.sqrt = 1 ∧
      (⟨3, 4⟩ : Vector ℝ).getUnitVec Real.sqrt =
        (some ((⟨3, 4⟩ : Vector ℝ).divf ((⟨3, 4⟩ : Vector ℝ).length Real.sqrt)), ⟨3, 4⟩) :=
  toUnitVec_spec Real.sqrt ⟨3, 4⟩ (by simp [Vector.eq_iff]) (Real.sqrt_nonneg _)
    (Real.mul_self_sqrt (add_nonneg (mul_self_nonneg _) (mul_self_nonneg _))) Real.sqrt_one

/-- Claim C17 (amended).  Whenever the vector `rotateVector` hands to `toUnitVec` is not the
zero vector (`sqrtf` exact at its squared length and at 1), the vector left in `v` has
length 1. -/
theorem rotateVector_unit (cosf sinf sqrtf : K → K) (v : Vector K) (a : K)
    (hu : (⟨cosf a * v.x - sinf a * v.y,
      sinf a * (cosf a * v.x - sinf a * v.y) + cosf a * v.y⟩ : Vector K) ≠ ⟨0, 0⟩)
    (h0 : 0 ≤ (⟨cosf a * v.x - sinf a * v.y,
      sinf a * (cosf a * v.x - sinf a * v.y) + cosf a * v.y⟩ : Vector K).length sqrtf)
    (hsq : (⟨cosf a * v.x - sinf a * v.y,
        sinf a * (cosf a * v.x - sinf a * v.y) + cosf a * v.y⟩ : Vector K).length sqrtf *
      (⟨cosf a * v.x - sinf a * v.y,
        sinf a * (cosf a * v.x - sinf a * v.y) + cosf a * v.y⟩ : Vector K).length sqrtf =
      (⟨cosf a * v.x - sinf a * v.y,
        sinf a * (cosf a * v.x - sinf a * v.y) + cosf a * v.y⟩ : Vector K).sqrLength)
    (hs1 : sqrtf 1 = 1) :
    ∃ w, rotateVector cosf sinf sqrtf v a = some w ∧ w.length sqrtf = 1 := by
  have hpos := sqrtf_pos_of_ne_zero sqrtf _ hu h0 hsq
  refine ⟨_, ?_, divf_length sqrtf _ hpos hsq hs1⟩
  unfold rotateVector
  exact toUnitVec_eq sqrtf _ hpos

/-- Witness for claim C17: rotating (3,4) by the angle 0 in real arithmetic. -/
theorem rotateVector_unit_witness :
    ∃ w, rotateVector Real.cos Real.sin Real.sqrt ⟨3, 4⟩ 0 = some w ∧
      w.length Real.sqrt = 1 :=
  rotateVector_unit Real.cos Real.sin Real.sqrt ⟨3, 4⟩ 0
    (by simp [Vector.eq_iff]) (Real.sqrt_nonneg _)
    (Real.mul_self_sqrt (add_nonneg (mul_self_nonneg _) (mul_self_nonneg _))) Real.sqrt_one

/-- Claim C17 as stated fails for the zero vector: in real arithmetic `rotateVector` applied to
(0,0) divides 0 by the length 0 and leaves NaN components, not a vector of length 1. -/
theorem rotateVector_zero :
    rotateVector Real.cos Real.sin Real.sqrt ⟨0, 0⟩ 0 = none := by
  unfold rotateVector Vector.toUnitVec returnVectorLength fdiv
  simp

/-- Claim C16, evaluated in real arithmetic at `v = (0,1)` and the angle `π/2`: the rotation
matrix applied to the original components gives (-1,0), of length 1, but `rotateVector` computes
the new `y` from the already overwritten `x` and leaves (-1,-1) divided by its length `√2`. -/
theorem rotateVector_quarter_turn :
    rotateVector Real.cos Real.sin Real.sqrt ⟨0, 1⟩ (Real.pi / 2) =
        some ⟨-1 / Real.sqrt 2, -1 / Real.sqrt 2⟩ ∧
      (⟨Real.cos (Real.pi / 2) * 0 - Real.sin (Real.pi / 2) * 1,
        Real.sin (Real.pi / 2) * 0 + Real.cos (Real.pi / 2) * 1⟩ : Vector ℝ) = ⟨-1, 0⟩ ∧
      (⟨-1 / Real.sqrt 2, -1 / Real.sqrt 2⟩ : Vector ℝ) ≠ ⟨-1, 0⟩ := by
  have h2 : Real.sqrt 2 ≠ 0 := by
    rw [Real.sqrt_ne_zero']
    norm_num
  have harg : (-1 : ℝ) * -1 + -1 * -1 = 2 := by norm_num
  refine ⟨?_, ?_, ?_⟩
  · unfold rotateVector Vector.toUnitVec returnVectorLength fdiv
    simp only [Real.cos_pi_div_two, Real.sin_pi_div_two, zero_mul, one_mul, mul_zero, mul_one,
      zero_sub, add_zero, harg, if_neg h2]
  · simp only [Real.cos_pi_div_two, Real.sin_pi_div_two, Vector.eq_iff]
    norm_num
  · intro h
    have := congrArg Vector.y h
    simp only [div_eq_zero_iff, h2, or_false] at this
    norm_num at this

end Rotation

/-! ## Result shape and frame of the ray query -/

section QueryShape

/-- Claim C21.  With `std::sort` returning a rearrangement of its input: over an empty
candidate list the query returns false with `p_obj` null; in general `p_obj` is null exactly
when the query returns false, and when it returns true `p_obj` is a member of the candidate
list. -/
theorem getFirstObjectHitByRay_shape
    (sort : (GameObject K → GameObject K → Bool) → List (GameObject K) → List (GameObject K))
    (sqrtf : K → K) (reads : GameObject K → StaleReads K) (enemies : List (GameObject K))
    (o e : Vector K)
    (hperm : ∀ l, (sort (closerTo o) l).Perm l) :
    getFirstObjectHitByRay sort sqrtf reads [] o e = (false, none) ∧
    ((getFirstObjectHitByRay sort sqrtf reads enemies o e).2 = none ↔
      (getFirstObjectHitByRay sort sqrtf reads enemies o e).1 = false) ∧
    ((getFirstObjectHitByRay sort sqrtf reads enemies o e).1 = true →
      ∃ c ∈ enemies, (getFirstObjectHitByRay sort sqrtf reads enemies o e).2 = some c) := by
  refine ⟨?_, ?_, ?_⟩
  · have hnil : sort (closerTo o) [] = [] := List.perm_nil.mp (hperm [])
    simp only [getFirstObjectHitByRay, hnil, List.find?_nil]
  · unfold getFirstObjectHitByRay
    simp only []
    cases (sort (closerTo o) enemies).find? (fun obj => objectTest sqrtf (reads obj) ⟨o, e⟩ obj) <;> simp
  · unfold getFirstObjectHitByRay
    simp only []
    cases hf : (sort (closerTo o) enemies).find? (fun obj => objectTest sqrtf (reads obj) ⟨o, e⟩ obj) with
    | none => intro h; exact absurd h (by simp)
    | some c =>
      intro _
      exact ⟨c, (hperm enemies).mem_iff.mp (List.mem_of_find?_eq_some hf), rfl⟩

theorem insertionSortBy_perm (o : Vector K) (l : List (GameObject K)) :
    (insertionSortBy (closerTo o) l).Perm l :=
  List.perm_insertionSort _ l

/-- Witness for claim C21: the empty candidate list and a single circular candidate off the
ray (0,0)-(100,0). -/
theorem getFirstObjectHitByRay_shape_witness :
    getFirstObjectHitByRay insertionSortBy sqrtQ (fun _ => StaleReads.zero) [] (⟨0, 0⟩ : Vector ℚ) ⟨100, 0⟩ =
      (false, none) ∧
    ((getFirstObjectHitByRay insertionSortBy sqrtQ (fun _ => StaleReads.zero) [⟨true, ⟨50, 1000⟩, ⟨0, 0⟩, [], 0⟩]
        (⟨0, 0⟩ : Vector ℚ) ⟨100, 0⟩).2 = none ↔
      (getFirstObjectHitByRay insertionSortBy sqrtQ (fun _ => StaleReads.zero) [⟨true, ⟨50, 1000⟩, ⟨0, 0⟩, [], 0⟩]
        (⟨0, 0⟩ : Vector ℚ) ⟨100, 0⟩).1 = false) :=
  ⟨(getFirstObjectHitByRay_shape insertionSortBy sqrtQ (fun _ => StaleReads.zero) [] ⟨0, 0⟩ ⟨100, 0⟩
      (insertionSortBy_perm _)).1,
    (getFirstObjectHitByRay_shape insertionSortBy sqrtQ (fun _ => StaleReads.zero) [⟨true, ⟨50, 1000⟩, ⟨0, 0⟩, [], 0⟩]
      ⟨0, 0⟩ ⟨100, 0⟩ (insertionSortBy_perm _)).2.1⟩

/-- Claim C22.  Run statement by statement, `getFirstObjectHitByRay` leaves the live list as
it was, with the same candidates (position, circle flag, stored edges) in the same order: the
sort works on the local copy `objects`, and the only variable of the caller that is written is
`p_obj`.  Its returned boolean and `p_obj` are those of `getFirstObjectHitByRay`. -/
theorem getFirstObjectHitByRay_run_frame
    (sort : (GameObject K → GameObject K → Bool) → List (GameObject K) → List (GameObject K))
    (sqrtf : K → K) (reads : GameObject K → StaleReads K) (enemyList : List (GameObject K))
    (p_obj : Option (GameObject K))
    (o e : Vector K) :
    (getFirstObjectHitByRay_run sort sqrtf reads enemyList p_obj o e).2.enemyList = enemyList ∧
    ((getFirstObjectHitByRay_run sort sqrtf reads enemyList p_obj o e).1,
      (getFirstObjectHitByRay_run sort sqrtf reads enemyList p_obj o e).2.p_obj) =
        getFirstObjectHitByRay sort sqrtf reads enemyList o e := by
  unfold getFirstObjectHitByRay_run getFirstObjectHitByRay
  simp only [List.nil_append]
  cases (sort (closerTo o) enemyList).find? (fun obj => objectTest sqrtf (reads obj) ⟨o, e⟩ obj) <;> exact ⟨rfl, rfl⟩

end QueryShape

/-! ## The cross product -/

section Cross

/-- Claim C23.  `Vector::cross` computes `a.x * b.y - a.y * b.x`; it is antisymmetric and
vanishes on equal arguments. -/
theorem cross_spec (a b : Vector K) :
    a.cross b = a.x * b.y - a.y * b.x ∧ a.cross b = -(b.cross a) ∧ a.cross a = 0 := by
  refine ⟨rfl, ?_, ?_⟩
  · simp only [Vector.cross]; ring
  · simp only [Vector.cross]; ring

end Cross

/-! ## Unchecked bounds of the `Line` overload -/

section LineBounds

/-- Closed form of the `Line` overload when the determinant passes the guard: everything past
the guard is computed from the values `p1`, `p3` that the stale references deliver. -/
theorem get_Intersect_Point_From_2_Lines_Line_eq (sqrtf : K → K) (line_1 line_2 : Line K)
    (p1 p3 out : Vector K)
    (hdet : ¬ |line_1.getDirectionVector.cross line_2.getDirectionVector| < FLT_EPSILON) :
    get_Intersect_Point_From_2_Lines_Line sqrtf line_1 line_2 p1 p3 out =
      if (p3 - p1).cross line_2.getDirectionVector /
          line_1.getDirectionVector.cross line_2.getDirectionVector >
            line_1.getDirectionVector.length sqrtf
      then (false, out)
      else (true, p1 + line_1.getDirectionVector.mulf
        ((p3 - p1).cross line_2.getDirectionVector /
          line_1.getDirectionVector.cross line_2.getDirectionVector)) := by
  unfold get_Intersect_Point_From_2_Lines_Line
  simp only [if_neg hdet]

theorem sqrtQ_one : sqrtQ (1 * 1) = 1 := sqrtQ_mul_self 1 (by norm_num)

theorem sqrtQ_sixteen : sqrtQ (4 * 4) = 4 := sqrtQ_mul_self 4 (by norm_num)

/-- Claim C25, evaluated at its own input, the ray (0,0)-(1,0) and the edge (-5,1)-(-5,2).  The
`Line` overload returns true, but the point it writes comes from the two stale references:
when both deliver the same value `g` the point is `g` itself, for instance (7,7) and not
(-5,0).  Only if they still delivered the first points (0,0) and (-5,1) of the two lines would
the point be (-5,0), with the negative parameter -5 along the ray and the parameter -1, outside
`[0,1]`, along the edge. -/
theorem get_Intersect_Point_From_2_Lines_Line_unchecked :
    (∀ g : Vector ℚ,
      get_Intersect_Point_From_2_Lines_Line sqrtQ (Line.mk (⟨0, 0⟩ : Vector ℚ) ⟨1, 0⟩)
        (Line.mk ⟨-5, 1⟩ ⟨-5, 2⟩) g g ⟨0, 0⟩ = (true, g)) ∧
    get_Intersect_Point_From_2_Lines_Line sqrtQ (Line.mk (⟨0, 0⟩ : Vector ℚ) ⟨1, 0⟩)
        (Line.mk ⟨-5, 1⟩ ⟨-5, 2⟩) ⟨7, 7⟩ ⟨7, 7⟩ ⟨0, 0⟩ ≠ (true, ⟨-5, 0⟩) ∧
    get_Intersect_Point_From_2_Lines_Line sqrtQ (Line.mk (⟨0, 0⟩ : Vector ℚ) ⟨1, 0⟩)
        (Line.mk ⟨-5, 1⟩ ⟨-5, 2⟩) ⟨0, 0⟩ ⟨-5, 1⟩ ⟨0, 0⟩ = (true, ⟨-5, 0⟩) ∧
    (⟨-5, 0⟩ : Vector ℚ) = (Line.mk (⟨0, 0⟩ : Vector ℚ) ⟨1, 0⟩).p1 +
      (Line.mk (⟨0, 0⟩ : Vector ℚ) ⟨1, 0⟩).getDirectionVector.mulf (-5) ∧
    (⟨-5, 0⟩ : Vector ℚ) = (Line.mk (⟨-5, 1⟩ : Vector ℚ) ⟨-5, 2⟩).p1 +
      (Line.mk (⟨-5, 1⟩ : Vector ℚ) ⟨-5, 2⟩).getDirectionVector.mulf (-1) := by
  have e1 : ((1 : ℚ) - 0) * (1 - 0) + (0 - 0) * (0 - 0) = 1 * 1 := by norm_num
  have hdet : ¬ |(Line.mk (⟨0, 0⟩ : Vector ℚ) ⟨1, 0⟩).getDirectionVector.cross
      (Line.mk (⟨-5, 1⟩ : Vector ℚ) ⟨-5, 2⟩).getDirectionVector| < FLT_EPSILON := by
    norm_num [Line.getDirectionVector, Vector.cross, FLT_EPSILON, abs_lt]
  have hlen : 0 ≤ (Line.mk (⟨0, 0⟩ : Vector ℚ) ⟨1, 0⟩).getDirectionVector.length sqrtQ := by
    simp only [Line.getDirectionVector, Vector.length, e1, sqrtQ_one]
    norm_num
  refine ⟨fun g => get_Intersect_Point_From_2_Lines_Line_aliased _ _ _ g _ hdet hlen, ?_, ?_,
    ?_, ?_⟩
  · rw [get_Intersect_Point_From_2_Lines_Line_aliased _ _ _ _ _ hdet hlen]
    intro h
    have := congrArg (fun r : Bool × Vector ℚ => r.2.x) h
    norm_num at this
  · unfold get_Intersect_Point_From_2_Lines_Line
    simp only [Line.getDirectionVector, Vector.cross, Vector.length,
      Vector.sub_x, Vector.sub_y, e1, sqrtQ_one, FLT_EPSILON]
    norm_num [Vector.eq_iff, abs_lt]
  · rw [Vector.eq_iff]
    simp only [Line.getDirectionVector, Vector.add_x, Vector.add_y, Vector.mulf_x,
      Vector.mulf_y]
    constructor <;> norm_num
  · rw [Vector.eq_iff]
    simp only [Line.getDirectionVector, Vector.add_x, Vector.add_y, Vector.mulf_x,
      Vector.mulf_y]
    constructor <;> norm_num

/-- Claim C26, evaluated at the ray (0,0)-(4,0) and the edge (2,-1)-(2,1), which cross at
(2,0).  The point the claim describes, `p1 + d1 * t` with `t = cross (p3 - p1) d2 / cross d1 d2`
taken from the two lines, is (2,0).  The `Line` overload returns true, but with both stale
references delivering (7,7) the point it writes is (7,7), which is not (2,0) and lies neither
on the infinite line through `line_1` nor on the infinite line through `line_2`. -/
theorem get_Intersect_Point_From_2_Lines_Line_point :
    get_Intersect_Point_From_2_Lines_Line sqrtQ (Line.mk (⟨0, 0⟩ : Vector ℚ) ⟨4, 0⟩)
        (Line.mk ⟨2, -1⟩ ⟨2, 1⟩) ⟨7, 7⟩ ⟨7, 7⟩ ⟨0, 0⟩ = (true, ⟨7, 7⟩) ∧
    (Line.mk (⟨0, 0⟩ : Vector ℚ) ⟨4, 0⟩).p1 +
        (Line.mk (⟨0, 0⟩ : Vector ℚ) ⟨4, 0⟩).getDirectionVector.mulf
          (((Line.mk (⟨2, -1⟩ : Vector ℚ) ⟨2, 1⟩).p1 -
              (Line.mk (⟨0, 0⟩ : Vector ℚ) ⟨4, 0⟩).p1).cross
            (Line.mk (⟨2, -1⟩ : Vector ℚ) ⟨2, 1⟩).getDirectionVector /
          (Line.mk (⟨0, 0⟩ : Vector ℚ) ⟨4, 0⟩).getDirectionVector.cross
            (Line.mk (⟨2, -1⟩ : Vector ℚ) ⟨2, 1⟩).getDirectionVector) = ⟨2, 0⟩ ∧
    (¬ ∃ t : ℚ, (⟨7, 7⟩ : Vector ℚ) = (Line.mk (⟨0, 0⟩ : Vector ℚ) ⟨4, 0⟩).p1 +
      (Line.mk (⟨0, 0⟩ : Vector ℚ) ⟨4, 0⟩).getDirectionVector.mulf t) ∧
    (¬ ∃ u : ℚ, (⟨7, 7⟩ : Vector ℚ) = (Line.mk (⟨2, -1⟩ : Vector ℚ) ⟨2, 1⟩).p1 +
      (Line.mk (⟨2, -1⟩ : Vector ℚ) ⟨2, 1⟩).getDirectionVector.mulf u) := by
  have e4 : ((4 : ℚ) - 0) * (4 - 0) + (0 - 0) * (0 - 0) = 4 * 4 := by norm_num
  refine ⟨?_, ?_, ?_, ?_⟩
  · apply get_Intersect_Point_From_2_Lines_Line_aliased
    · norm_num [Line.getDirectionVector, Vector.cross, FLT_EPSILON, abs_lt]
    · simp only [Line.getDirectionVector, Vector.length, e4, sqrtQ_sixteen]
      norm_num
  · rw [Vector.eq_iff]
    simp only [Line.getDirectionVector, Vector.cross, Vector.add_x, Vector.add_y, Vector.mulf_x,
      Vector.mulf_y, Vector.sub_x, Vector.sub_y]
    constructor <;> norm_num
  · rintro ⟨t, ht⟩
    have := congrArg Vector.y ht
    simp only [Line.getDirectionVector, Vector.add_y, Vector.mulf_y, Vector.sub_y] at this
    norm_num at this
  · rintro ⟨u, hu⟩
    have := congrArg Vector.x hu
    simp only [Line.getDirectionVector, Vector.add_x, Vector.mulf_x, Vector.sub_x] at this
    norm_num at this

end LineBounds

/-! ## The constructor on an empty vertex list -/

section EmptyPolygon

omit [LinearOrderedField K] in
theorem edgeLoop_nil_succ (r i : Nat) (acc : List (Line K)) :
    edgeLoop ([] : List (Vector K)) (r + 1) i acc = none := by
  simp [edgeLoop]

theorem SIZE_MAX_succ : SIZE_MAX = 18446744073709551614 + 1 := by
  norm_num [SIZE_MAX]

/-- Claim C30, evaluated at `nEdges = 0`: no vertex is generated, `points.size() - 1` wraps
around to `SIZE_MAX`, the edge loop is entered and its first iteration reads `points[0]` and
`points[1]` of the empty vector, so the construction does not complete. -/
theorem GameObject_new_zero (cosf sinf : K → K) (PI : K) (newPos2D : Vector K) (color : Nat) :
    generatePoints cosf sinf PI 0 = [] ∧
    sizeMinusOne (generatePoints cosf sinf PI 0).length = SIZE_MAX ∧
    (generatePoints cosf sinf PI 0)[0]? = none ∧
    edgeLoop (generatePoints cosf sinf PI 0)
      (sizeMinusOne (generatePoints cosf sinf PI 0).length) 0 [] = none ∧
    GameObject.new cosf sinf PI newPos2D 0 color = none := by
  have hp : generatePoints cosf sinf PI 0 = [] := by
    simp [generatePoints]
  have hl : sizeMinusOne (generatePoints cosf sinf PI 0).length = SIZE_MAX := by
    rw [hp]
    rfl
  have he : edgeLoop (generatePoints cosf sinf PI 0)
      (sizeMinusOne (generatePoints cosf sinf PI 0).length) 0 [] = none := by
    rw [hl, hp, SIZE_MAX_succ, edgeLoop_nil_succ]
  refine ⟨hp, hl, by rw [hp]; rfl, he, ?_⟩
  unfold GameObject.new
  rw [if_neg (by decide), if_neg (by decide)]
  simp only [he]

end EmptyPolygon

/-! ## Facts about `Eye::percept` -/

section Percept

/-- Claim C27.  For a facing vector `r ≠ 0`, with `sqrtf` exact at `|lineVector|²`, the
`projectedVector` computed inline in `Eye::percept` equals
`projected_Point_On_Line(e, Line(pos, pos + lineVector))` with `lineVector = (-r.y, r.x)`. -/
theorem Eye_projectedVector_refines (sqrtf : K → K) (r pos e : Vector K) (hr : r ≠ ⟨0, 0⟩)
    (hsq : returnVectorLength sqrtf ⟨-r.y, r.x⟩ * returnVectorLength sqrtf ⟨-r.y, r.x⟩ =
      (⟨-r.y, r.x⟩ : Vector K).sqrLength) :
    Eye.projectedVector sqrtf r pos e =
      projected_Point_On_Line e ⟨pos, pos + ⟨-r.y, r.x⟩⟩ := by
  have hne : pos ≠ pos + ⟨-r.y, r.x⟩ := by
    intro h
    rw [Vector.eq_iff] at h
    simp only [Vector.add_x, Vector.add_y] at h
    apply hr
    rw [Vector.eq_iff]
    show r.x = 0 ∧ r.y = 0
    constructor
    · linarith [h.2]
    · linarith [h.1]
  have hline : (Line.mk pos (pos + ⟨-r.y, r.x⟩)).p1 ≠ (Line.mk pos (pos + ⟨-r.y, r.x⟩)).p2 := hne
  have hq := getLengthSqr_ne_zero _ hline
  have hlen : (Line.mk pos (pos + ⟨-r.y, r.x⟩)).getLengthSqr =
      (⟨-r.y, r.x⟩ : Vector K).sqrLength := by
    simp only [Line.getLengthSqr, Vector.sqrLength, Vector.sub_x, Vector.sub_y, Vector.add_x,
      Vector.add_y]
    ring
  rw [projected_Point_On_Line_eq e _ hline]
  unfold Eye.projectedVector fdiv
  rw [hlen] at hq ⊢
  simp only [hsq, if_neg hq]
  congr 1
  rw [Vector.eq_iff]
  simp only [Vector.add_x, Vector.add_y, Vector.mulf_x, Vector.mulf_y, Vector.sub_x,
    Vector.sub_y, Vector.dot]
  constructor <;> ring

/-- Witness for claim C27: facing vector (0,1), player at (1,2), enemy at (4,6), in real
arithmetic. -/
theorem Eye_projectedVector_refines_witness :
    Eye.projectedVector Real.sqrt (⟨0, 1⟩ : Vector ℝ) ⟨1, 2⟩ ⟨4, 6⟩ =
      projected_Point_On_Line ⟨4, 6⟩ ⟨⟨1, 2⟩, (⟨1, 2⟩ : Vector ℝ) + ⟨-1, 0⟩⟩ :=
  Eye_projectedVector_refines Real.sqrt ⟨0, 1⟩ ⟨1, 2⟩ ⟨4, 6⟩ (by simp [Vector.eq_iff])
    (Real.mul_self_sqrt (add_nonneg (mul_self_nonneg _) (mul_self_nonneg _)))

/-- For a unit facing vector and `sqrtf (a * a) = |a|`, the inline projection of
`Eye::percept` is `pos + lineVector * dot lineVector (e - pos)`. -/
theorem Eye_projectedVector_unit (sqrtf : K → K) (r pos e : Vector K)
    (hunit : r.sqrLength = 1) (hsqrt : ∀ a : K, sqrtf (a * a) = |a|) :
    Eye.projectedVector sqrtf r pos e =
      some (pos + Vector.mulf ⟨-r.y, r.x⟩ (-r.y * (e.x - pos.x) + r.x * (e.y - pos.y))) := by
  have harg : -r.y * -r.y + r.x * r.x = (1 : K) * 1 := by
    have h : r.x * r.x + r.y * r.y = 1 := hunit
    linear_combination h
  have hL : returnVectorLength sqrtf ⟨-r.y, r.x⟩ = 1 := by
    unfold returnVectorLength
    simp only [harg, hsqrt, abs_one]
  unfold Eye.projectedVector fdiv
  simp only [hL, mul_one, one_ne_zero, if_false, div_one, Vector.dot, Vector.sub_x,
    Vector.sub_y, zero_add]

/-- Claim C28.  For a unit facing vector `r` (with `sqrtf (a * a) = |a|`) and `v = e - pos`,
the projected position `Eye::percept` stores on the enemy is
`(v.x * r.y - v.y * r.x, v.x * r.x + v.y * r.y)`, the signed lateral and forward distances,
and its length equals the length of `v`. -/
theorem Eye_percept_spec (sqrtf : K → K) (r : Vector K) (mother instEnemy : GameObject K)
    (hunit : r.sqrLength = 1) (hsqrt : ∀ a : K, sqrtf (a * a) = |a|) :
    Eye.percept sqrtf r mother instEnemy =
      some (instEnemy.projectPos2D
        ⟨(instEnemy.pos2D - mother.pos2D).x * r.y - (instEnemy.pos2D - mother.pos2D).y * r.x,
          (instEnemy.pos2D - mother.pos2D).x * r.x +
            (instEnemy.pos2D - mother.pos2D).y * r.y⟩) ∧
    (⟨(instEnemy.pos2D - mother.pos2D).x * r.y - (instEnemy.pos2D - mother.pos2D).y * r.x,
        (instEnemy.pos2D - mother.pos2D).x * r.x +
          (instEnemy.pos2D - mother.pos2D).y * r.y⟩ : Vector K).length sqrtf =
      (instEnemy.pos2D - mother.pos2D).length sqrtf := by
  have h : r.x * r.x + r.y * r.y = 1 := hunit
  constructor
  · have hX : returnVectorLength sqrtf
        (mother.pos2D + Vector.mulf ⟨-r.y, r.x⟩ (-r.y * (instEnemy.pos2D.x - mother.pos2D.x) +
          r.x * (instEnemy.pos2D.y - mother.pos2D.y)) - mother.pos2D) =
        |(instEnemy.pos2D - mother.pos2D).x * r.y - (instEnemy.pos2D - mother.pos2D).y * r.x| := by
      unfold returnVectorLength
      rw [← hsqrt]
      congr 1
      simp only [Vector.sub_x, Vector.sub_y, Vector.add_x, Vector.add_y, Vector.mulf_x,
        Vector.mulf_y]
      linear_combination
        ((-r.y * (instEnemy.pos2D.x - mother.pos2D.x) +
          r.x * (instEnemy.pos2D.y - mother.pos2D.y)) *
        (-r.y * (instEnemy.pos2D.x - mother.pos2D.x) +
          r.x * (instEnemy.pos2D.y - mother.pos2D.y))) * h
    have hY : returnVectorLength sqrtf
        (instEnemy.pos2D - (mother.pos2D + Vector.mulf ⟨-r.y, r.x⟩
          (-r.y * (instEnemy.pos2D.x - mother.pos2D.x) +
            r.x * (instEnemy.pos2D.y - mother.pos2D.y)))) =
        |(instEnemy.pos2D - mother.pos2D).x * r.x + (instEnemy.pos2D - mother.pos2D).y * r.y| := by
      unfold returnVectorLength
      rw [← hsqrt]
      congr 1
      simp only [Vector.sub_x, Vector.sub_y, Vector.add_x, Vector.add_y, Vector.mulf_x,
        Vector.mulf_y]
      linear_combination
        ((-r.y * (instEnemy.pos2D.x - mother.pos2D.x) +
          r.x * (instEnemy.pos2D.y - mother.pos2D.y)) *
        (-r.y * (instEnemy.pos2D.x - mother.pos2D.x) +
          r.x * (instEnemy.pos2D.y - mother.pos2D.y)) -
          ((instEnemy.pos2D.x - mother.pos2D.x) * (instEnemy.pos2D.x - mother.pos2D.x) +
            (instEnemy.pos2D.y - mother.pos2D.y) * (instEnemy.pos2D.y - mother.pos2D.y))) * h
    have hc1 : (instEnemy.pos2D - mother.pos2D).x * r.x - (instEnemy.pos2D - mother.pos2D).y * -r.y
        = (instEnemy.pos2D - mother.pos2D).x * r.x + (instEnemy.pos2D - mother.pos2D).y * r.y := by
      ring
    unfold Eye.percept
    simp only [Eye_projectedVector_unit sqrtf r _ _ hunit hsqrt, hX, hY, hc1]
    generalize (instEnemy.pos2D - mother.pos2D).x * r.x +
      (instEnemy.pos2D - mother.pos2D).y * r.y = dt
    generalize (instEnemy.pos2D - mother.pos2D).x * r.y -
      (instEnemy.pos2D - mother.pos2D).y * r.x = cr
    congr 2
    by_cases h1 : dt < 0 <;> by_cases h2 : cr < 0
    · simp only [if_pos h1, if_pos h2, abs_of_neg h1, abs_of_neg h2, mul_neg, mul_one, neg_neg]
    · simp only [if_pos h1, if_neg h2, abs_of_neg h1, abs_of_nonneg (not_lt.mp h2), mul_neg,
        mul_one, neg_neg]
    · simp only [if_neg h1, if_pos h2, abs_of_neg h2, abs_of_nonneg (not_lt.mp h1), mul_neg,
        mul_one, neg_neg]
    · simp only [if_neg h1, if_neg h2, abs_of_nonneg (not_lt.mp h1),
        abs_of_nonneg (not_lt.mp h2)]
  · show sqrtf _ = sqrtf _
    congr 1
    simp only [Vector.sub_x, Vector.sub_y]
    linear_combination
      ((instEnemy.pos2D.x - mother.pos2D.x) * (instEnemy.pos2D.x - mother.pos2D.x) +
        (instEnemy.pos2D.y - mother.pos2D.y) * (instEnemy.pos2D.y - mother.pos2D.y)) * h

theorem sqrtQ_mul_self_abs (a : ℚ) : sqrtQ (a * a) = |a| := by
  unfold sqrtQ
  exact Rat.sqrt_eq a

/-- Witness for claim C28: facing vector (0,1), player at (1,2), enemy at (4,6): the stored
projected position is (3,4). -/
theorem Eye_percept_spec_witness :
    Eye.percept sqrtQ (⟨0, 1⟩ : Vector ℚ) ⟨false, ⟨1, 2⟩, ⟨0, 0⟩, [], 0⟩
        ⟨true, ⟨4, 6⟩, ⟨0, 0⟩, [], 0⟩ =
      some ⟨true, ⟨4, 6⟩, ⟨3, 4⟩, [], 0⟩ := by
  rw [(Eye_percept_spec sqrtQ ⟨0, 1⟩ ⟨false, ⟨1, 2⟩, ⟨0, 0⟩, [], 0⟩
    ⟨true, ⟨4, 6⟩, ⟨0, 0⟩, [], 0⟩ (by norm_num [Vector.sqrLength]) sqrtQ_mul_self_abs).1]
  simp only [GameObject.projectPos2D, Vector.sub_x, Vector.sub_y]
  norm_num

end Percept

/-! ## The facing vector of a module -/

section FacingVector

theorem coreTurnMax_lt_half_pi : 0 < coreTurnMax Real.pi ∧ coreTurnMax Real.pi < Real.pi / 2 := by
  have hpi := Real.pi_pos
  unfold coreTurnMax TWO_PI
  constructor
  · positivity
  · linarith

/-- In real arithmetic `rotateVector` turns a vector of length 1 into a vector of length 1
whenever the cosine of the angle is not zero. -/
theorem rotateVector_real_unit (v : Vector ℝ) (a : ℝ) (hv : v.length Real.sqrt = 1)
    (hc : Real.cos a ≠ 0) :
    ∃ w, rotateVector Real.cos Real.sin Real.sqrt v a = some w ∧ w.length Real.sqrt = 1 := by
  have hne : v.x ≠ 0 ∨ v.y ≠ 0 := by
    by_contra hcon
    push_neg at hcon
    have : v.length Real.sqrt = 0 := by
      simp [Vector.length, hcon.1, hcon.2]
    rw [this] at hv
    exact zero_ne_one hv
  have hu : (⟨Real.cos a * v.x - Real.sin a * v.y,
      Real.sin a * (Real.cos a * v.x - Real.sin a * v.y) + Real.cos a * v.y⟩ : Vector ℝ) ≠
      ⟨0, 0⟩ := by
    intro h
    rw [Vector.eq_iff] at h
    obtain ⟨h1, h2⟩ := h
    simp only at h1 h2
    rw [h1, mul_zero, zero_add] at h2
    have hy : v.y = 0 := (mul_eq_zero.mp h2).resolve_left hc
    rw [hy, mul_zero, sub_zero] at h1
    have hx : v.x = 0 := (mul_eq_zero.mp h1).resolve_left hc
    rcases hne with h | h
    · exact h hx
    · exact h hy
  have hsq := Real.mul_self_sqrt (add_nonneg
    (mul_self_nonneg (Real.cos a * v.x - Real.sin a * v.y))
    (mul_self_nonneg (Real.sin a * (Real.cos a * v.x - Real.sin a * v.y) + Real.cos a * v.y)))
  have hpos := sqrtf_pos_of_ne_zero Real.sqrt _ hu (Real.sqrt_nonneg _) hsq
  refine ⟨_, ?_, divf_length Real.sqrt _ hpos hsq Real.sqrt_one⟩
  unfold rotateVector
  exact toUnitVec_eq Real.sqrt _ hpos

/-- One `syncRotation` call keeps the facing vector at length 1 and `coreTurn` within
`[-coreTurnMax, coreTurnMax]`. -/
theorem syncRotation_unit (inp : SyncInput ℝ) (m : Module ℝ)
    (hm : m.rotationVector.length Real.sqrt = 1)
    (hb : -coreTurnMax Real.pi ≤ m.coreTurn ∧ m.coreTurn ≤ coreTurnMax Real.pi) :
    ∃ m1, Module.syncRotation Real.cos Real.sin Real.sqrt Real.pi inp m = some m1 ∧
      m1.rotationVector.length Real.sqrt = 1 ∧
      -coreTurnMax Real.pi ≤ m1.coreTurn ∧ m1.coreTurn ≤ coreTurnMax Real.pi := by
  obtain ⟨hM0, hM1⟩ := coreTurnMax_lt_half_pi
  have hcos : ∀ a : ℝ, -coreTurnMax Real.pi ≤ a → a ≤ coreTurnMax Real.pi → Real.cos a ≠ 0 := by
    intro a h1 h2
    exact ne_of_gt (Real.cos_pos_of_mem_Ioo ⟨by linarith, by linarith⟩)
  unfold Module.syncRotation
  by_cases hf : inp.fire = true
  · rw [if_pos hf]
    exact ⟨m, rfl, hm, hb⟩
  · rw [if_neg hf]
    simp only []
    generalize (if inp.isRightKeyDown = true then
      (if inp.isLeftKeyDown = true then
        m.coreTurn + inp.coreAccelerationLeft * inp.globalDeltaTime else m.coreTurn) -
        inp.coreAccelerationRight * inp.globalDeltaTime
      else if inp.isLeftKeyDown = true then
        m.coreTurn + inp.coreAccelerationLeft * inp.globalDeltaTime else m.coreTurn) = c2
    have hclamp : ∀ c : ℝ, -coreTurnMax Real.pi ≤
        (if c ≥ coreTurnMax Real.pi then coreTurnMax Real.pi
          else if c ≤ -coreTurnMax Real.pi then -coreTurnMax Real.pi else c) ∧
        (if c ≥ coreTurnMax Real.pi then coreTurnMax Real.pi
          else if c ≤ -coreTurnMax Real.pi then -coreTurnMax Real.pi else c) ≤
          coreTurnMax Real.pi := by
      intro c
      split_ifs with h1 h2
      · exact ⟨by linarith, le_refl _⟩
      · exact ⟨le_refl _, by linarith⟩
      · exact ⟨by linarith [not_le.mp h2], by linarith [not_le.mp h1]⟩
    obtain ⟨hc1, hc2⟩ := hclamp c2
    generalize (if c2 ≥ coreTurnMax Real.pi then coreTurnMax Real.pi
      else if c2 ≤ -coreTurnMax Real.pi then -coreTurnMax Real.pi else c2) = c3 at hc1 hc2 ⊢
    by_cases hk : (!inp.isLeftKeyDown && !inp.isRightKeyDown) = true
    · rw [if_pos hk]
      have hl : lerp id c3 (0 : ℝ) (coreDeceleration : ℝ) =
          Except.ok (c3 + (0 - c3) * coreDeceleration) := by
        unfold lerp
        rw [if_neg (by norm_num [coreDeceleration])]
        rfl
      rw [hl]
      have hd : (coreDeceleration : ℝ) = 1 / 10 := rfl
      have hb1 : -coreTurnMax Real.pi ≤ c3 + (0 - c3) * coreDeceleration := by
        rw [hd]; linarith
      have hb2 : c3 + (0 - c3) * coreDeceleration ≤ coreTurnMax Real.pi := by
        rw [hd]; linarith
      obtain ⟨w, hw, hw1⟩ := rotateVector_real_unit m.rotationVector _ hm (hcos _ hb1 hb2)
      simp only [hw]
      exact ⟨_, rfl, hw1, hb1, hb2⟩
    · rw [if_neg hk]
      obtain ⟨w, hw, hw1⟩ := rotateVector_real_unit m.rotationVector _ hm (hcos _ hc1 hc2)
      simp only [hw]
      exact ⟨_, rfl, hw1, hc1, hc2⟩

/-- Claim C24.  In real arithmetic, starting from `rotationVector = (0,1)` and `coreTurn = 0`,
every sequence of `syncRotation` calls (any key flags, accelerations and frame times, firing or
not) completes and leaves a `rotationVector` of length exactly 1, with `coreTurn` inside
`[-coreTurnMax, coreTurnMax]`; the clamp keeps the cosine of the angle away from zero, so the
vector handed to the normalisation is never the zero vector. -/
theorem syncRotations_unit (inputs : List (SyncInput ℝ)) :
    ∃ m, Module.syncRotations Real.cos Real.sin Real.sqrt Real.pi inputs Module.init = some m ∧
      m.rotationVector.length Real.sqrt = 1 ∧
      -coreTurnMax Real.pi ≤ m.coreTurn ∧ m.coreTurn ≤ coreTurnMax Real.pi := by
  have hgen : ∀ (l : List (SyncInput ℝ)) (m0 : Module ℝ),
      m0.rotationVector.length Real.sqrt = 1 →
      (-coreTurnMax Real.pi ≤ m0.coreTurn ∧ m0.coreTurn ≤ coreTurnMax Real.pi) →
      ∃ m, Module.syncRotations Real.cos Real.sin Real.sqrt Real.pi l m0 = some m ∧
        m.rotationVector.length Real.sqrt = 1 ∧
        -coreTurnMax Real.pi ≤ m.coreTurn ∧ m.coreTurn ≤ coreTurnMax Real.pi := by
    intro l
    induction l with
    | nil => intro m0 h1 h2; exact ⟨m0, rfl, h1, h2⟩
    | cons inp rest ih =>
      intro m0 h1 h2
      obtain ⟨m1, hs, hu, hb⟩ := syncRotation_unit inp m0 h1 h2
      obtain ⟨m, hr, hmu, hmb⟩ := ih m1 hu hb
      refine ⟨m, ?_, hmu, hmb⟩
      rw [Module.syncRotations, hs]
      exact hr
  obtain ⟨hM0, -⟩ := coreTurnMax_lt_half_pi
  apply hgen inputs Module.init
  · simp [Module.init, Vector.length]
  · constructor
    · show -coreTurnMax Real.pi ≤ 0
      linarith
    · show (0 : ℝ) ≤ coreTurnMax Real.pi
      linarith

end FacingVector

/-! ## The alpha value of `enemy::draw` -/

section Alpha

/-- Claim C29.  For every projected `y` with `|y| < maxSight` the interpolation parameter
`|y - maxSight| / maxDistance` lies in `[0,1]`, `lerp(0, 255, t)` does not throw and `tempAlpha`
is an integer in `[0,255]`, within the alpha mask; for `|y| ≥ maxSight` `lerp` is not called
and `tempAlpha` is 0. -/
theorem tempAlpha_spec [FloorRing K] (y : K) :
    (|y| < (maxSight : K) →
      0 ≤ alphaParameter y ∧ alphaParameter y ≤ 1 ∧
      ∃ n : Int, tempAlpha y = Except.ok n ∧ 0 ≤ n ∧ n ≤ 255 ∧ n ≤ alphaMask) ∧
    ((maxSight : K) ≤ |y| → tempAlpha y = Except.ok 0) := by
  have hS : ((maxSight : Int) : K) = 1000 := by norm_num [maxSight]
  have hD : ((maxDistance : Int) : K) = 2200 := by norm_num [maxDistance]
  constructor
  · intro hy
    rw [hS] at hy
    obtain ⟨hy1, hy2⟩ := abs_lt.mp hy
    have hnum : |y - 1000| = 1000 - y := by
      rw [abs_of_nonpos (by linarith)]
      ring
    have ht0 : 0 ≤ alphaParameter y := by
      unfold alphaParameter
      rw [hS, hD]
      exact div_nonneg (abs_nonneg _) (by norm_num)
    have ht1 : alphaParameter y ≤ 1 := by
      unfold alphaParameter
      rw [hS, hD, hnum, div_le_one (by norm_num)]
      linarith
    refine ⟨ht0, ht1, ?_⟩
    have hx0 : (0 : K) ≤ ((0 : Int) : K) + ((Int.sub 255 0 : Int) : K) * alphaParameter y := by
      have : ((Int.sub 255 0 : Int) : K) = 255 := by norm_num [Int.sub]
      rw [this]
      have := mul_nonneg (by norm_num : (0 : K) ≤ 255) ht0
      simpa using this
    have hx1 : ((0 : Int) : K) + ((Int.sub 255 0 : Int) : K) * alphaParameter y ≤ 255 := by
      have : ((Int.sub 255 0 : Int) : K) = 255 := by norm_num [Int.sub]
      rw [this]
      have := mul_le_mul_of_nonneg_left ht1 (by norm_num : (0 : K) ≤ 255)
      simpa using this
    have hval : tempAlpha y = Except.ok
        (Int.floor (((0 : Int) : K) + ((Int.sub 255 0 : Int) : K) * alphaParameter y)) := by
      unfold tempAlpha
      rw [hS, if_pos hy]
      unfold lerp
      rw [if_neg (by
        rintro (h | h)
        · exact absurd ht1 (not_le.mpr h)
        · exact absurd ht0 (not_le.mpr h))]
      congr 1
      unfold truncToInt
      exact if_pos hx0
    have hn0 : 0 ≤ Int.floor (((0 : Int) : K) + ((Int.sub 255 0 : Int) : K) * alphaParameter y) :=
      Int.floor_nonneg.mpr hx0
    have hn1 : Int.floor (((0 : Int) : K) + ((Int.sub 255 0 : Int) : K) * alphaParameter y)
        ≤ 255 := by
      have h1 := Int.floor_le (((0 : Int) : K) + ((Int.sub 255 0 : Int) : K) * alphaParameter y)
      have h2 := le_trans h1 hx1
      exact_mod_cast h2
    exact ⟨_, hval, hn0, hn1, hn1⟩
  · intro hy
    unfold tempAlpha
    rw [if_neg (not_lt.mpr hy)]

/-- Witness for claim C29: a projected position with `y = 0`, over the rationals. -/
theorem tempAlpha_spec_witness :
    0 ≤ alphaParameter (0 : ℚ) ∧ alphaParameter (0 : ℚ) ≤ 1 ∧
      ∃ n : Int, tempAlpha (0 : ℚ) = Except.ok n ∧ 0 ≤ n ∧ n ≤ 255 ∧ n ≤ alphaMask :=
  (tempAlpha_spec (0 : ℚ)).1 (by norm_num [maxSight])

end Alpha

end Dank
